import Mathlib

/-!
Verification development for the Tokdash usage-aggregation core.

This file gives a shallow embedding, in Lean 4, of the normalization and
aggregation pipeline of the Tokdash repository:

* `src/tokdash/model_normalization.py`  — model-name canonicalization;
* `src/tokdash/pricing.py`              — pricing resolution and cost;
* `src/tokdash/compute.py`              — entry aggregation, period handling,
  daily contributions and the calendar merger;
* `src/tokdash/sources/coding_tools.py` — the shared range filter of the
  per-tool parsers;
* `src/tokdash/sources/openclaw.py`     — the session-log aggregator.

Modelling conventions, used throughout:

* Python `str` is modelled by `String`/`List Char`; the inputs exercised by
  the repository are ASCII, so `Char.toLower` models `str.lower`.
* Python `int` is modelled by `Int` (arbitrary precision in both).
* Python `float` is modelled by the exact rationals `ℚ`: every arithmetic
  law used below (commutativity and associativity of `+`) also holds for
  the float values produced by the source for the claims in question.
* Python dicts are modelled as association lists (`List (key × value)`),
  which preserve the insertion order that Python dicts guarantee; `aupd`
  models `d.setdefault(k, init)` followed by mutation of the entry.
* Timestamps already parsed to `datetime` are modelled as rational epoch
  seconds in UTC; timezone conversions between aware datetimes preserve
  the instant, so `_to_utc` is the identity on the model.
* File-system discovery (globbing, mtime) and JSON decoding are I/O and are
  modelled away: every embedded function starts from the decoded records
  the source iterates over.
-/

/-! ### Python-style character and string helpers -/

/-- Python `str.strip` / `\s`: the ASCII whitespace characters recognised by
CPython (space, tab, newline, carriage return, vertical tab, form feed). -/
def pyIsSpace (c : Char) : Bool :=
  c = ' ' || c = '\t' || c = '\n' || c = '\r' || c = Char.ofNat 11 || c = Char.ofNat 12

/-- `str.strip()` on a character list. -/
def lcStrip (l : List Char) : List Char :=
  ((l.dropWhile pyIsSpace).reverse.dropWhile pyIsSpace).reverse

/-- ASCII word characters, as matched by `\w` on the source's inputs. -/
def isWordChar (c : Char) : Bool :=
  c.isAlphanum || c = '_'

/-- `n.split("/")[-1]`: keep only the last `/`-delimited segment.
The accumulator holds the current segment reversed. -/
def lastSeg (acc : List Char) : List Char → List Char
  | [] => acc.reverse
  | '/' :: rest => lastSeg [] rest
  | c :: rest => lastSeg (c :: acc) rest

/-- `re.sub(r"^(models?|model)[:/]", "", n)`: drop a leading
`models:`, `models/`, `model:` or `model/` marker (the four prefixes the
anchored pattern can match). -/
def stripModelHead (l : List Char) : List Char :=
  if ("models:".toList).isPrefixOf l then l.drop 7
  else if ("models/".toList).isPrefixOf l then l.drop 7
  else if ("model:".toList).isPrefixOf l then l.drop 6
  else if ("model/".toList).isPrefixOf l then l.drop 6
  else l

/-- Collapse every run of `-` to a single `-`
(`re.sub(r"-+", "-", n)`): inside a run only the last `-` is kept. -/
def collapseDashes : List Char → List Char
  | [] => []
  | '-' :: rest =>
    let cont := collapseDashes rest
    match rest with
    | '-' :: _ => cont
    | _ => '-' :: cont
  | c :: rest => c :: collapseDashes rest

/-- `re.sub(r"[\s_]+", "-", n)` followed by `re.sub(r"-+", "-", n)`:
mapping each whitespace/underscore character to `-` first and then
collapsing all `-` runs yields exactly the same string. -/
def dashNorm (l : List Char) : List Char :=
  collapseDashes (l.map fun c => if pyIsSpace c || c = '_' then '-' else c)

/-- `s.strip("-")`. -/
def trimDashes (l : List Char) : List Char :=
  ((l.dropWhile (· = '-')).reverse.dropWhile (· = '-')).reverse

/-- Delete the leftmost match of an end-anchored pattern: `re.sub(pat, "", n)`
for a pattern of the form `...$`. `p suf` decides whether the pattern matches
the suffix `suf` in its entirety; the patterns used below never match the
empty suffix. -/
def stripEndMatch (p : List Char → Bool) : List Char → List Char
  | [] => []
  | c :: cs => if p (c :: cs) then [] else c :: stripEndMatch p cs

/-- Suffix test for `-(latest|stable)$`. -/
def isLatestStableSfx (l : List Char) : Bool :=
  l = "-latest".toList || l = "-stable".toList

/-- Suffix test for `-(preview|exp|experimental)(?:-[\w\d]+)?$`
(the optional extra token is a single `-`-separated word). -/
def isPrevExpSfx (l : List Char) : Bool :=
  match l with
  | '-' :: rest =>
    ["preview", "exp", "experimental"].any fun tok =>
      (tok.toList).isPrefixOf rest &&
        (let tail := rest.drop tok.length
         tail = [] ||
           (match tail with
            | '-' :: w => !w.isEmpty && w.all isWordChar
            | _ => false))
  | _ => false

/-- Suffix test for `-(\d{4}-\d{2}-\d{2}|\d{8})$`. -/
def isDateSfx (l : List Char) : Bool :=
  match l with
  | '-' :: rest =>
    (rest.length = 8 && rest.all Char.isDigit) ||
      (match rest with
       | [a, b, c, d, '-', e, f, '-', g, h] =>
         [a, b, c, d, e, f, g, h].all Char.isDigit
       | _ => false)
  | _ => false

/-- Suffix test for `-thinking$`. -/
def isThinkingSfx (l : List Char) : Bool :=
  l = "-thinking".toList

/-- `re.sub(r"-(\d)-(\d+)", r"-\1.\2", n)`: every (leftmost, non-overlapping)
occurrence of `-<digit>-<digits>` becomes `-<digit>.<digits>`.
Scanning char by char is equivalent to the regex scan: after a replacement
the remaining greedy digit run cannot start a new match (a match starts with
`-`), so the digits are copied verbatim either way; on a failed position the
regex advances exactly one character. -/
def dotVersions : List Char → List Char
  | [] => []
  | '-' :: rest =>
    let cont := dotVersions rest
    match rest with
    | a :: '-' :: b :: rest2 =>
      if a.isDigit && b.isDigit then '-' :: a :: '.' :: b :: dotVersions rest2
      else '-' :: cont
    | _ => '-' :: cont
  | c :: rest => c :: dotVersions rest

/-- `re.sub(r"k2(?:p|-)5", "k2.5", n)`: rewrite every occurrence of `k2p5`
or `k2-5` to `k2.5`, scanning left to right (one-character advance on a
failed position, exactly as the regex engine does). -/
def kimiSub : List Char → List Char
  | [] => []
  | 'k' :: rest =>
    let cont := kimiSub rest
    match rest with
    | '2' :: 'p' :: '5' :: rest2 => 'k' :: '2' :: '.' :: '5' :: kimiSub rest2
    | '2' :: '-' :: '5' :: rest2 => 'k' :: '2' :: '.' :: '5' :: kimiSub rest2
    | _ => 'k' :: cont
  | c :: rest => c :: kimiSub rest

/-- Substring test (`needle in haystack`). -/
def hasInfixL (needle : List Char) : List Char → Bool
  | [] => needle.isEmpty
  | c :: rest => needle.isPrefixOf (c :: rest) || hasInfixL needle rest

/-! ### `model_normalization.normalize_model_name` -/

/-- The explicit family-level alias map of `normalize_model_name`. -/
def normalizeAliasMap : List (String × String) :=
  [("gemini-3-pro-high", "gemini-3-pro"),
   ("gemini-3-pro-low", "gemini-3-pro"),
   ("gemini-3-pro-preview", "gemini-3-pro"),
   ("o3-mini-high", "o3-mini"),
   ("o3-mini-low", "o3-mini"),
   ("claude-3-5-sonnet", "claude-3.5-sonnet"),
   ("claude-3-7-sonnet", "claude-3.7-sonnet"),
   ("k2p5", "k2.5"),
   ("k2-5", "k2.5")]

/-- `alias_map.get(n, n)`. -/
def aliasApply (l : List Char) : List Char :=
  match normalizeAliasMap.find? (fun p => p.1.toList = l) with
  | some p => p.2.toList
  | none => l

/-- `tokdash.model_normalization.normalize_model_name`, step for step:
canonical model key used for the cross-source merge. -/
def normalize_model_name (name : String) : String :=
  let n0 := (lcStrip name.toList).map Char.toLower
  if n0.isEmpty then "unknown" else
  let n := n0.map fun c => if c = '\\' then '/' else c
  let n := stripModelHead n
  let n := lastSeg [] n
  let n := if ("antigravity-".toList).isPrefixOf n then n.drop 12 else n
  let n := trimDashes (dashNorm n)
  let n := stripEndMatch isLatestStableSfx n
  let n := stripEndMatch isPrevExpSfx n
  let n := stripEndMatch isDateSfx n
  let n := stripEndMatch isThinkingSfx n
  let n := aliasApply n
  let n := dotVersions n
  let n := if ("claude-opus".toList).isPrefixOf n then "opus".toList ++ n.drop 11 else n
  let n := if (("opus".toList).isPrefixOf n || ("sonnet".toList).isPrefixOf n) &&
              !(("claude-".toList).isPrefixOf n) then "claude-".toList ++ n else n
  let n := kimiSub n
  let n := if ["k2.5", "kimi2.5", "kimi-2.5", "kimi-k2p5", "kimi-k2-5"].any
              (fun s => s.toList = n) then "kimi-k2.5".toList else n
  let n := if ("kimi".toList).isPrefixOf n &&
              (hasInfixL "k2.5".toList n || hasInfixL "k2p5".toList n ||
               hasInfixL "k2-5".toList n || hasInfixL "2.5".toList n)
           then "kimi-k2.5".toList else n
  if n.isEmpty then "unknown" else ⟨n⟩

example : normalize_model_name "openai/gpt-4o-mini" = "gpt-4o-mini" := by decide
example : normalize_model_name "kimi/kimi-k2p5" = "kimi-k2.5" := by decide

/-! ### Python integer literal parsing (`int(str)`) -/

/-- Numeric value of an ASCII digit. -/
def digitVal (c : Char) : Nat := c.toNat - 48

/-- Digit-run parser for `int(str)`: digits with optional single underscores
between digits (CPython literal grammar); the run must start and end with a
digit. `acc` carries the value parsed so far. -/
def pyDigitsCore (acc : Nat) : List Char → Option Nat
  | [] => some acc
  | ['_'] => none
  | '_' :: c :: rest =>
    if c.isDigit then pyDigitsCore (acc * 10 + digitVal c) rest else none
  | c :: rest =>
    if c.isDigit then pyDigitsCore (acc * 10 + digitVal c) rest else none

/-- Parse a nonempty underscore-grouped digit run. -/
def pyDigits : List Char → Option Nat
  | [] => none
  | '_' :: _ => none
  | c :: rest => if c.isDigit then pyDigitsCore (digitVal c) rest else none

/-- Python `int(s)` on ASCII input: strip whitespace, optional sign, digit
run; `none` models the `ValueError` branch. -/
def pyIntOfString (s : String) : Option Int :=
  match lcStrip s.toList with
  | '+' :: rest => (pyDigits rest).map (fun n => (n : Int))
  | '-' :: rest => (pyDigits rest).map (fun n => -(n : Int))
  | rest => (pyDigits rest).map (fun n => (n : Int))

example : pyIntOfString " 365 " = some 365 := by decide
example : pyIntOfString "month" = none := by decide
example : pyIntOfString "-3" = some (-3) := by decide

/-! ### Calendar dates (`datetime.date`) -/

/-- A Python `datetime.date` (proleptic Gregorian calendar). -/
structure PyDate where
  year : Int
  month : Int
  day : Int
deriving DecidableEq, Repr

/-- Days since the civil epoch 1970-01-01 for a Gregorian date
(standard civil-from-days correspondence, as used by `datetime.date`
arithmetic). -/
def daysFromCivil (dt : PyDate) : Int :=
  let y := if dt.month ≤ 2 then dt.year - 1 else dt.year
  let era := Int.fdiv y 400
  let yoe := y - era * 400
  let mp := Int.emod (dt.month + 9) 12
  let doy := Int.fdiv (153 * mp + 2) 5 + dt.day - 1
  let doe := yoe * 365 + Int.fdiv yoe 4 - Int.fdiv yoe 100 + doy
  era * 146097 + doe - 719468

/-- Gregorian date for a day count since 1970-01-01 (inverse of
`daysFromCivil`). -/
def civilFromDays (z0 : Int) : PyDate :=
  let z := z0 + 719468
  let era := Int.fdiv z 146097
  let doe := z - era * 146097
  let yoe := Int.fdiv (doe - Int.fdiv doe 1460 + Int.fdiv doe 36524 - Int.fdiv doe 146096) 365
  let y := yoe + era * 400
  let doy := doe - (365 * yoe + Int.fdiv yoe 4 - Int.fdiv yoe 100)
  let mp := Int.fdiv (5 * doy + 2) 153
  let d := doy - Int.fdiv (153 * mp + 2) 5 + 1
  let m := mp + (if mp < 10 then 3 else -9)
  ⟨if m ≤ 2 then y + 1 else y, m, d⟩

/-- `date - timedelta(days=k)`. -/
def dateSubDays (dt : PyDate) (k : Int) : PyDate :=
  civilFromDays (daysFromCivil dt - k)

example : dateSubDays ⟨2026, 3, 2⟩ 6 = ⟨2026, 2, 24⟩ := by decide
example : dateSubDays ⟨2024, 3, 1⟩ 1 = ⟨2024, 2, 29⟩ := by decide

/-- Zero-pad to two digits (`%m`, `%d`). -/
def pad2 (n : Int) : String :=
  if 0 ≤ n && n < 10 then "0" ++ toString n else toString n

/-- Zero-pad to four digits (`%Y` in CPython). -/
def pad4 (n : Int) : String :=
  let s := toString n
  if s.length ≥ 4 then s else String.mk (List.replicate (4 - s.length) '0') ++ s

/-- `strftime("%Y-%m-%d")`. -/
def fmtDate (dt : PyDate) : String :=
  pad4 dt.year ++ "-" ++ pad2 dt.month ++ "-" ++ pad2 dt.day

example : fmtDate ⟨2026, 3, 2⟩ = "2026-03-02" := by decide

/-! ### `compute.period_to_days` and `compute.period_to_range_args` -/

/-- The fixed period table of `period_to_days`. -/
def periodMapping : List (String × Int) :=
  [("today", 1), ("3days", 3), ("week", 7), ("14days", 14), ("month", 30)]

/-- `compute.period_to_days`: integer day count when the string parses as an
`int` (minimum 1), else the fixed table, else 1. -/
def period_to_days (period : String) : Int :=
  match pyIntOfString period with
  | some n => max 1 n
  | none =>
    match periodMapping.find? (fun p => p.1 = period) with
    | some p => p.2
    | none => 1

/-- `compute.period_to_range_args`, parametrised by the current local date
(`datetime.now().astimezone()` / `datetime.now().date()`): `"month"` maps to
the calendar range from the first of the current month through today; a
one-day window maps to `--today`; otherwise a `days`-long window ending
today (`--until` is inclusive at this layer). -/
def period_to_range_args (today : PyDate) (period : String) : List String :=
  if period = "month" then
    ["--since", fmtDate ⟨today.year, today.month, 1⟩, "--until", fmtDate today]
  else
    let days := period_to_days period
    if days = 1 then ["--today"]
    else
      ["--since", fmtDate (dateSubDays today (days - 1)), "--until", fmtDate today]

/-- Routing of `compute.get_session_data`: `"month"` goes to the
calendar-month session aggregator, everything else to the day-count one. -/
inductive SessionRoute
  | monthToDate
  | lastDays (n : Int)
deriving DecidableEq, Repr

/-- `compute.get_session_data` dispatch. -/
def get_session_data_route (period : String) : SessionRoute :=
  if period = "month" then .monthToDate else .lastDays (period_to_days period)

/-- The `since` bound used by `openclaw.get_usage_for_month`: local midnight
on the first day of the current month. -/
def get_usage_for_month_since (today : PyDate) : PyDate :=
  ⟨today.year, today.month, 1⟩

example : period_to_days "month" = 30 := by decide
example : period_to_range_args ⟨2026, 3, 15⟩ "month" =
    ["--since", "2026-03-01", "--until", "2026-03-15"] := by decide
example : period_to_range_args ⟨2026, 3, 15⟩ "week" =
    ["--since", "2026-03-09", "--until", "2026-03-15"] := by decide
example : period_to_range_args ⟨2026, 3, 15⟩ "nonsense" = ["--today"] := by decide

/-! ### `pricing.PricingDatabase`

The resolution cache `_resolved_cache` is pure memoization (the tables are
immutable after load), so the resolver is embedded as a pure function; the
`seen` set of `_resolve_pricing` is threaded explicitly. A price record is
modelled by its four rate fields; `recordTruthy` models Python's truthiness
test `if p:` on the record dict (an empty record is falsy and never counts
as a hit). -/

/-- A pricing-table record (per 1M tokens); `none` models an absent key. -/
structure PriceRecord where
  input : Option ℚ := none
  output : Option ℚ := none
  cache_read : Option ℚ := none
  cache_write : Option ℚ := none
deriving DecidableEq, Repr

/-- Python truthiness of the record dict (`if p:`). -/
def recordTruthy (p : PriceRecord) : Bool :=
  p.input.isSome || p.output.isSome || p.cache_read.isSome || p.cache_write.isSome

/-- The loaded pricing database: `pricing` and `aliases` tables. -/
structure PricingDatabase where
  pricing : List (String × PriceRecord) := []
  aliases : List (String × String) := []
deriving DecidableEq, Repr

/-- `self.pricing.get(k)`. -/
def lookupPricing (db : PricingDatabase) (k : String) : Option PriceRecord :=
  (db.pricing.find? (fun p => p.1 = k)).map (·.2)

/-- `self.aliases.get(k)`. -/
def lookupAlias (db : PricingDatabase) (k : String) : Option String :=
  (db.aliases.find? (fun p => p.1 = k)).map (·.2)

/-- `PricingDatabase._normalize_key`: lowercase/trim, backslash to slash,
drop a `models?[:/]` head, keep the last `/`-segment, hyphenate whitespace
and underscores, collapse and trim hyphens. -/
def pricing_normalize_key (s : String) : String :=
  let l := (lcStrip s.toList).map Char.toLower
  if l.isEmpty then "" else
  let l := l.map fun c => if c = '\\' then '/' else c
  let l := stripModelHead l
  let l := lastSeg [] l
  ⟨trimDashes (dashNorm l)⟩

/-- `re.sub(r"^(models?|model):", "", s)` (colon form only, as used by
`_normalize_alias_key`). -/
def stripModelHeadColon (l : List Char) : List Char :=
  if ("models:".toList).isPrefixOf l then l.drop 7
  else if ("model:".toList).isPrefixOf l then l.drop 6
  else l

/-- `PricingDatabase._normalize_alias_key`: like `_normalize_key` but keeps
the provider/model structure (no `/`-split, only the colon head form). -/
def pricing_normalize_alias_key (s : String) : String :=
  let l := (lcStrip s.toList).map Char.toLower
  if l.isEmpty then "" else
  let l := l.map fun c => if c = '\\' then '/' else c
  let l := stripModelHeadColon l
  ⟨trimDashes (dashNorm l)⟩

/-- `PricingDatabase._strip_common_suffixes`: `-latest`/`-stable`, then a
date suffix, then `-thinking`. -/
def strip_common_suffixes (s : String) : String :=
  ⟨stripEndMatch isThinkingSfx (stripEndMatch isDateSfx
    (stripEndMatch isLatestStableSfx s.toList))⟩

/-- `PricingDatabase._version_hyphen_to_dot`. -/
def version_hyphen_to_dot (s : String) : String :=
  ⟨dotVersions s.toList⟩

/-- `PricingDatabase._kimi_aliases`. -/
def kimi_aliases (k : String) : List String :=
  if ["k2.5", "k2-5", "k2p5", "kimi2.5", "kimi-k2p5", "kimi-k2-5"].any (· = k) then
    ["k2p5", "kimi-k2.5"]
  else if ("kimi".toList).isPrefixOf k.toList &&
      (hasInfixL "k2.5".toList k.toList || hasInfixL "k2p5".toList k.toList ||
       hasInfixL "k2-5".toList k.toList) then
    ["k2p5", "kimi-k2.5"]
  else []

/-- `consider(k)` of `_resolve_pricing`: skip empty or seen keys, record the
probe in `seen`, and hit only when the table holds a truthy record. -/
def considerKey (db : PricingDatabase) (seen : List String) (k : String) :
    Option PriceRecord × List String :=
  if k = "" then (none, seen)
  else if k ∈ seen then (none, seen)
  else
    match lookupPricing db k with
    | some p => (if recordTruthy p then some p else none, k :: seen)
    | none => (none, k :: seen)

/-- Probe a list of candidate keys directly against the pricing table,
first hit wins. -/
def probeKeys (db : PricingDatabase) : List String → List String →
    Option PriceRecord × List String
  | seen, [] => (none, seen)
  | seen, k :: ks =>
    match considerKey db seen k with
    | (some p, s) => (some p, s)
    | (none, s) => probeKeys db s ks

/-- Probe a list of alias keys: look each up in the alias table and, on a
hit, resolve the alias target against the pricing table. -/
def probeAliases (db : PricingDatabase) : List String → List String →
    Option PriceRecord × List String
  | seen, [] => (none, seen)
  | seen, ak :: aks =>
    if ak = "" then probeAliases db seen aks
    else
      match lookupAlias db ak with
      | none => probeAliases db seen aks
      | some target =>
        match considerKey db seen target with
        | (some p, s) => (some p, s)
        | (none, s) => probeAliases db s aks

/-- The four suffix/dot variants generated for each candidate key. -/
def suffixVariants (ak : String) : List String :=
  [ak, strip_common_suffixes ak, version_hyphen_to_dot ak,
   version_hyphen_to_dot (strip_common_suffixes ak)]

/-- The alias-stage candidate keys of `_resolve_pricing`. -/
def alias_variant_keys (raw base : String) : List String :=
  ([raw, base, pricing_normalize_alias_key raw, pricing_normalize_alias_key base,
    pricing_normalize_key raw, pricing_normalize_key base].map
    (fun ak => if ak = "" then [] else suffixVariants ak)).flatten

/-- The normalized candidate keys of the final stage of `_resolve_pricing`:
suffix/dot variants, the `antigravity-`-stripped variants, and the Kimi
alias expansions. -/
def expanded_keys (norm base_norm : String) : List String :=
  ([norm, base_norm].map (fun k =>
    if k = "" then []
    else
      suffixVariants k ++
        (if ("antigravity-".toList).isPrefixOf k.toList then
          suffixVariants ⟨k.toList.drop 12⟩
        else []) ++
        kimi_aliases k ++ kimi_aliases (strip_common_suffixes k))).flatten

/-- `PricingDatabase._resolve_pricing`: direct keys, then alias-table keys,
then normalized candidates; `none` is the cached not-found result. -/
def resolve_pricing (db : PricingDatabase) (model : String) : Option PriceRecord :=
  let raw := model
  let base0 := if raw.toList.contains '/' then (⟨lastSeg [] raw.toList⟩ : String) else raw
  let base := if base0 = "" then raw else base0
  match probeKeys db [] [raw, base] with
  | (some p, _) => some p
  | (none, seen1) =>
    match probeAliases db seen1 (alias_variant_keys raw base) with
    | (some p, _) => some p
    | (none, seen2) =>
      (probeKeys db seen2 (expanded_keys (pricing_normalize_key raw)
        (pricing_normalize_key base))).1

/-- `PricingDatabase.get_cost`.  Note on the `or 0.0` guards of the source:
for a present numeric value `v`, `v or 0.0 = v` (`0` is mapped to `0.0`),
and for an absent key the default is returned unchanged, so `Option.getD`
is extensionally exact. -/
def get_cost (db : PricingDatabase) (model : String)
    (input_tokens output_tokens cache_read cache_write : Int) : ℚ :=
  match resolve_pricing db model with
  | none => 0
  | some p =>
    let input_rate := p.input.getD 0
    let output_rate := p.output.getD 0
    let cache_read_rate := p.cache_read.getD (input_rate * (1 / 10))
    let cache_write_rate := p.cache_write.getD input_rate
    ((input_tokens : ℚ) * input_rate + (output_tokens : ℚ) * output_rate +
      (cache_read : ℚ) * cache_read_rate + (cache_write : ℚ) * cache_write_rate) / 1000000

/-- A small concrete pricing database used by witnesses (integer-valued
rates so that record equality is kernel-decidable). -/
def sampleDb : PricingDatabase :=
  { pricing := [("kimi-k2.5", { input := some 1, output := some 4, cache_read := some 2, cache_write := some 3 }),
                ("gpt-4o-mini", { input := some 2, output := some 6 })],
    aliases := [("vol-engine/kimi-2.5", "kimi-k2.5")] }

example : resolve_pricing sampleDb "MoonshotAI/KIMI_K2P5" =
    some { input := some 1, output := some 4, cache_read := some 2, cache_write := some 3 } := by decide
example : resolve_pricing sampleDb "openai/gpt-4o-mini-2024-07-18" =
    some { input := some 2, output := some 6 } := by decide
example : resolve_pricing sampleDb "mystery-model" = none := by decide
example : get_cost sampleDb "mystery-model" 10 10 10 10 = 0 := by
  have h : resolve_pricing sampleDb "mystery-model" = none := by decide
  simp [get_cost, h]

/-! ### Dynamic values and usage entries -/

/-- An untyped JSON-ish value as held in an entry dict field. -/
inductive JVal
  | jnull
  | jint (n : Int)
  | jstr (s : String)
deriving DecidableEq, Repr

/-- Python truthiness of a `JVal`. -/
def jvalTruthy : JVal → Bool
  | .jnull => false
  | .jint n => n ≠ 0
  | .jstr s => s ≠ ""

/-- `int(e.get("timestamp", 0) or 0)` of `_contributions_from_entries`
(`JVal.jnull` models an absent key or a `None` value): a falsy value gives
`0`; an integer passes through; a string goes through `int(str)` and raises
(`.error`) when it does not parse. -/
def pyTsInt (v : JVal) : Except Unit Int :=
  if !jvalTruthy v then .ok 0
  else
    match v with
    | .jnull => .ok 0
    | .jint n => .ok n
    | .jstr s =>
      match pyIntOfString s with
      | some n => .ok n
      | none => .error ()

/-- One tokscale-compatible usage entry, as produced by the coding-tool
parsers (`entries[]` rows).  String and token fields carry the values of the
source's `entry.get(key, default)` reads; the timestamp is kept dynamic
because `_contributions_from_entries` converts it at use site. -/
structure Entry where
  source : String := "unknown"
  model : String := "unknown"
  provider : String := ""
  input : Int := 0
  output : Int := 0
  cacheRead : Int := 0
  cacheWrite : Int := 0
  reasoning : Int := 0
  messageCount : Option Int := none
  cost : ℚ := 0
  timestamp : JVal := .jnull
deriving DecidableEq, Repr

/-- `f"{provider}/{model}" if provider else model`. -/
def full_model_name (e : Entry) : String :=
  if e.provider ≠ "" then e.provider ++ "/" ++ e.model else e.model

/-- Reporting semantics: `tokens_in = input_raw + cache_write`. -/
def entry_tokens_in (e : Entry) : Int := e.input + e.cacheWrite

/-- `total_tokens = tokens_in + tokens_out + tokens_cache`. -/
def entry_total_tokens (e : Entry) : Int :=
  entry_tokens_in e + e.output + e.cacheRead

/-- `int(entry.get("messageCount", 0) or 1)`: absent or zero counts as one
message. -/
def entry_messages (e : Entry) : Int :=
  match e.messageCount with
  | none => 1
  | some k => if k = 0 then 1 else k

/-- The cost recomputed by `parse_entries_json` from the local pricing
database (raw input tokens priced, cache dimensions passed separately). -/
def entry_cost (db : PricingDatabase) (e : Entry) : ℚ :=
  get_cost db (full_model_name e) e.input e.output e.cacheRead e.cacheWrite

/-! ### Association lists modelling Python dicts -/

/-- `d.get(k)`. -/
def alookup [DecidableEq κ] (m : List (κ × α)) (k : κ) : Option α :=
  (m.find? (fun p => p.1 = k)).map (·.2)

/-- `d.setdefault(k, init)` followed by in-place mutation to `f`: replace in
place when the key is present, append at the end otherwise (Python dicts
keep insertion order). -/
def aupd [DecidableEq κ] (m : List (κ × α)) (k : κ) (f : Option α → α) :
    List (κ × α) :=
  match m with
  | [] => [(k, f none)]
  | (k', v) :: rest =>
    if k' = k then (k', f (some v)) :: rest else (k', v) :: aupd rest k f

/-! ### `compute.parse_entries_json` -/

/-- A per-model row of the aggregation (the dict created under
`models_dict`, with its constant `name` field). -/
structure ModelRow where
  name : String
  tokens : Int := 0
  tokens_in : Int := 0
  tokens_out : Int := 0
  tokens_cache : Int := 0
  cost : ℚ := 0
  messages : Int := 0
deriving DecidableEq, Repr

/-- A per-(source, model) row of `all_models_dict`. -/
structure GlobalRow where
  source : String
  name : String
  tokens : Int := 0
  tokens_in : Int := 0
  tokens_out : Int := 0
  tokens_cache : Int := 0
  cost : ℚ := 0
  messages : Int := 0
deriving DecidableEq, Repr

/-- A per-app row (`apps[source]`), with its nested per-model dict. -/
structure AppRow where
  tokens : Int := 0
  tokens_in : Int := 0
  tokens_out : Int := 0
  tokens_cache : Int := 0
  cost : ℚ := 0
  messages : Int := 0
  models_dict : List (String × ModelRow) := []
deriving DecidableEq, Repr

/-- The accumulation state of the `parse_entries_json` loop. -/
structure AggState where
  apps : List (String × AppRow) := []
  all_models : List ((String × String) × GlobalRow) := []
deriving DecidableEq, Repr

/-- The zero row created by `models_dict.setdefault`. -/
def model_init (fm : String) : ModelRow := { name := fm }

/-- The zero row created when a new source appears in `apps`. -/
def app_init (_src : String) : AppRow := {}

/-- The zero row created by `all_models_dict.setdefault`. -/
def global_init (k : String × String) : GlobalRow := { source := k.1, name := k.2 }

/-- Fold one entry into its per-model row. -/
def model_bump (db : PricingDatabase) (m : ModelRow) (e : Entry) : ModelRow :=
  { m with
    tokens := m.tokens + entry_total_tokens e,
    tokens_in := m.tokens_in + entry_tokens_in e,
    tokens_out := m.tokens_out + e.output,
    tokens_cache := m.tokens_cache + e.cacheRead,
    cost := m.cost + entry_cost db e,
    messages := m.messages + entry_messages e }

/-- Fold one entry into its app row, including the nested model dict. -/
def app_bump (db : PricingDatabase) (a : AppRow) (e : Entry) : AppRow :=
  let fm := full_model_name e
  { tokens := a.tokens + entry_total_tokens e,
    tokens_in := a.tokens_in + entry_tokens_in e,
    tokens_out := a.tokens_out + e.output,
    tokens_cache := a.tokens_cache + e.cacheRead,
    cost := a.cost + entry_cost db e,
    messages := a.messages + entry_messages e,
    models_dict := aupd a.models_dict fm
      (fun mo => model_bump db (mo.getD (model_init fm)) e) }

/-- Fold one entry into its (source, model) row. -/
def global_bump (db : PricingDatabase) (g : GlobalRow) (e : Entry) : GlobalRow :=
  { g with
    tokens := g.tokens + entry_total_tokens e,
    tokens_in := g.tokens_in + entry_tokens_in e,
    tokens_out := g.tokens_out + e.output,
    tokens_cache := g.tokens_cache + e.cacheRead,
    cost := g.cost + entry_cost db e,
    messages := g.messages + entry_messages e }

/-- One iteration of the `parse_entries_json` entry loop: fully empty rows
are suppressed, everything else is folded into `apps` (with its nested
model dict) and `all_models_dict`. -/
def parse_step (db : PricingDatabase) (st : AggState) (e : Entry) : AggState :=
  if entry_total_tokens e = 0 then st
  else
    let fm := full_model_name e
    { apps := aupd st.apps e.source
        (fun o => app_bump db (o.getD (app_init e.source)) e),
      all_models := aupd st.all_models (e.source, fm)
        (fun go => global_bump db (go.getD (global_init (e.source, fm))) e) }

/-- The full `parse_entries_json` fold over the entry list. -/
def parse_entries_agg (db : PricingDatabase) (entries : List Entry) : AggState :=
  entries.foldl (parse_step db) {}

/-- Stable sort by cost, descending (`sorted(..., key=cost, reverse=True)`):
a stable sort is unique, so insertion sort matches Python's sort exactly. -/
def sortByCostDesc (cost : α → ℚ) (l : List α) : List α :=
  l.insertionSort (fun x y => cost y ≤ cost x)

/-- The sorted per-app model breakdown (`app_data["models"]`). -/
def app_models_sorted (a : AppRow) : List ModelRow :=
  sortByCostDesc (·.cost) (a.models_dict.map (·.2))

/-- The result dict of `parse_entries_json`; `apps` keeps the per-app rows
keyed by source (holding `models_dict`, from which the sorted `models` list
is `app_models_sorted`). -/
structure ParseResult where
  total_cost : ℚ
  total_tokens : Int
  total_messages : Int
  apps : List (String × AppRow)
  all_models : List GlobalRow
deriving DecidableEq, Repr

/-- `compute.parse_entries_json`: aggregate entries by app and by
(source, model), then total over the flat model rows. -/
def parse_entries_json (db : PricingDatabase) (entries : List Entry) : ParseResult :=
  let st := parse_entries_agg db entries
  let all_models := sortByCostDesc (·.cost) (st.all_models.map (·.2))
  { total_cost := (all_models.map (·.cost)).sum,
    total_tokens := (all_models.map (·.tokens)).sum,
    total_messages := (all_models.map (·.messages)).sum,
    apps := st.apps,
    all_models := all_models }

/-! ### `compute._contributions_from_entries` -/

/-- The five-field token breakdown dict. -/
structure Tokens5 where
  input : Int := 0
  output : Int := 0
  cacheRead : Int := 0
  cacheWrite : Int := 0
  reasoning : Int := 0
deriving DecidableEq, Repr

/-- The `totals` sub-dict of a day record. -/
structure DayTotals where
  tokens : Int := 0
  cost : ℚ := 0
  messages : Int := 0
deriving DecidableEq, Repr

/-- One element of a day's `sources` list. -/
structure DaySource where
  source : String
  modelId : String
  providerId : String
  tokens : Tokens5
  cost : ℚ
  messages : Int
deriving DecidableEq, Repr

/-- One per-calendar-day contribution record. -/
structure DayContribution where
  date : String
  totals : DayTotals := {}
  intensity : Int := 0
  tokenBreakdown : Tokens5 := {}
  sources : List DaySource := []
deriving DecidableEq, Repr

/-- The zero-initialised day record created by `by_date.setdefault`. -/
def init_day (date : String) : DayContribution := { date := date }

/-- Fold one entry into a day record (`_contributions_from_entries` loop
body after the timestamp guard): cache-write tokens count as billable
input, the `cacheWrite` bucket receives `+= 0`. -/
def contrib_apply (e : Entry) (day : DayContribution) : DayContribution :=
  let input_t := e.input + e.cacheWrite
  let total := input_t + e.output + e.cacheRead + e.reasoning
  { day with
    totals := { tokens := day.totals.tokens + total,
                cost := day.totals.cost + e.cost,
                messages := day.totals.messages + 1 },
    tokenBreakdown := { input := day.tokenBreakdown.input + input_t,
                        output := day.tokenBreakdown.output + e.output,
                        cacheRead := day.tokenBreakdown.cacheRead + e.cacheRead,
                        cacheWrite := day.tokenBreakdown.cacheWrite + 0,
                        reasoning := day.tokenBreakdown.reasoning + e.reasoning },
    sources := day.sources ++
      [{ source := e.source,
         modelId := e.model,
         providerId := if e.provider = "" then "unknown" else e.provider,
         tokens := { input := input_t, output := e.output, cacheRead := e.cacheRead,
                     cacheWrite := 0, reasoning := e.reasoning },
         cost := e.cost,
         messages := 1 }] }

/-- Sort a list of date keys (`sorted(by_date.keys())`). -/
def sortDates (l : List String) : List String :=
  l.insertionSort (fun a b => a ≤ b)

/-- The `_contributions_from_entries` loop with its accumulator; an entry
whose timestamp fails `int()` raises, modelled by `.error`. -/
def contributions_go (dateOf : Int → String)
    (byDate : List (String × DayContribution)) :
    List Entry → Except Unit (List DayContribution)
  | [] => .ok ((sortDates (byDate.map (·.1))).filterMap (fun k => alookup byDate k))
  | e :: es =>
    match pyTsInt e.timestamp with
    | .error u => .error u
    | .ok ts =>
      if ts ≤ 0 then contributions_go dateOf byDate es
      else
        contributions_go dateOf
          (aupd byDate (dateOf ts)
            (fun o => contrib_apply e (o.getD (init_day (dateOf ts))))) es

/-- `compute._contributions_from_entries`, parametrised by the
timestamp-to-local-date function (`datetime.fromtimestamp(ms / 1000,
timezone.utc).astimezone().strftime("%Y-%m-%d")`). -/
def contributions_from_entries (dateOf : Int → String) (entries : List Entry) :
    Except Unit (List DayContribution) :=
  contributions_go dateOf [] entries

/-! ### `sources/openclaw.get_session_usage`

The embedding starts from the decoded JSONL records (file discovery and the
per-file mtime pre-filter are I/O); ISO-string timestamps are likewise a
parsing concern, so entry timestamps are the numeric epoch values the
source's `_parse_message_datetime` handles, and `dateOf` models
`msg_dt.astimezone().strftime("%Y-%m-%d")`. -/

/-- A `usage["cost"]`/`usage["totalCost"]` payload value: a number or a
`{total, value}` dict. -/
inductive CostVal
  | num (q : ℚ)
  | obj (total : Option ℚ) (value : Option ℚ)
deriving DecidableEq, Repr

/-- Python truthiness of a cost payload value. -/
def costValTruthy : CostVal → Bool
  | .num q => q ≠ 0
  | .obj t v => t.isSome || v.isSome

/-- `openclaw._usage_cost_from_payload` on the two usage cost fields. -/
def usage_cost_from_payload (cost totalCost : Option CostVal) : ℚ :=
  let c1 := cost.getD (.num 0)
  let cd := if costValTruthy c1 then c1
            else
              let c2 := totalCost.getD (.num 0)
              if costValTruthy c2 then c2 else .num 0
  match cd with
  | .num q => q
  | .obj t v =>
    let t0 := t.getD 0
    if t0 ≠ 0 then t0 else v.getD 0

/-- An assistant message `usage` dict (canonical and alias token keys). -/
structure OclUsage where
  input : Option Int := none
  inputTokens : Option Int := none
  output : Option Int := none
  outputTokens : Option Int := none
  cacheRead : Option Int := none
  cacheReadTokens : Option Int := none
  cacheWrite : Option Int := none
  cacheWriteTokens : Option Int := none
  cost : Option CostVal := none
  totalCost : Option CostVal := none
deriving DecidableEq, Repr

/-- Python truthiness of the usage dict (`if not usage: continue`): the dict
is truthy when it has at least one key. -/
def usageTruthy (u : OclUsage) : Bool :=
  u.input.isSome || u.inputTokens.isSome || u.output.isSome || u.outputTokens.isSome ||
  u.cacheRead.isSome || u.cacheReadTokens.isSome || u.cacheWrite.isSome ||
  u.cacheWriteTokens.isSome || u.cost.isSome || u.totalCost.isSome

/-- `a or b` on the integers read with default 0
(`usage.get(k, 0) or usage.get(kAlias, 0) or 0`). -/
def pyOrInt (a b : Int) : Int := if a ≠ 0 then a else b

/-- The `message` dict of a session record. -/
structure OclMessage where
  role : Option String := none
  provider : Option String := none
  model : Option String := none
  usage : Option OclUsage := none
deriving DecidableEq, Repr

/-- One decoded JSONL session record. -/
structure OclEntry where
  type : Option String := none
  message : Option OclMessage := none
  timestamp : Option ℚ := none
deriving DecidableEq, Repr

/-- `openclaw._parse_message_datetime` on numeric timestamps: `0`/`None`
give `None`; values above `1e11` are epoch milliseconds, others epoch
seconds. -/
def parse_message_dt (ts : Option ℚ) : Option ℚ :=
  match ts with
  | none => none
  | some q =>
    if q = 0 then none
    else some (if q > 100000000000 then q / 1000 else q)

/-- Running per-model stats (`model_stats[model]`). -/
structure OclModelStats where
  tokens_in : Int := 0
  tokens_out : Int := 0
  tokens_cache : Int := 0
  cost : ℚ := 0
  messages : Int := 0
deriving DecidableEq, Repr

/-- Running per-day per-model stats (`daily_contribs[date]["sources"][model]`). -/
structure OclDaySrc where
  tokens_in : Int := 0
  tokens_out : Int := 0
  tokens_cacheRead : Int := 0
  tokens_total : Int := 0
  cost : ℚ := 0
  messages : Int := 0
deriving DecidableEq, Repr

/-- Running per-day stats (`daily_contribs[date]`). -/
structure OclDay where
  tokens_in : Int := 0
  tokens_out : Int := 0
  tokens_cacheRead : Int := 0
  tokens_total : Int := 0
  cost : ℚ := 0
  messages : Int := 0
  sources : List (String × OclDaySrc) := []
deriving DecidableEq, Repr

/-- The accumulation state of the `get_session_usage` entry loop. -/
structure OclState where
  model_stats : List (String × OclModelStats) := []
  daily : List (String × OclDay) := []
  total_messages : Int := 0
deriving DecidableEq, Repr

/-- One iteration of the `get_session_usage` entry loop.  Note the bounds:
an entry is skipped when `msg_dt < since_date` or `msg_dt > until_date`
(both comparisons strict), so the window is closed at `until`. -/
def ocl_step (db : PricingDatabase) (since untilB : Option ℚ) (dateOf : ℚ → String)
    (st : OclState) (entry : OclEntry) : OclState :=
  if entry.type ≠ some "message" then st else
  match entry.message with
  | none => st
  | some msg =>
    if msg.role ≠ some "assistant" then st else
    match parse_message_dt entry.timestamp with
    | none => st
    | some t =>
      if (match since with | some s => decide (t < s) | none => false) then st
      else if (match untilB with | some u => decide (t > u) | none => false) then st
      else
        let msg_date := dateOf t
        let st := { st with total_messages := st.total_messages + 1 }
        match msg.usage with
        | none => st
        | some u =>
          if !usageTruthy u then st
          else
            let provider := match msg.provider with
              | some p => if p ≠ "" then p else "unknown"
              | none => "unknown"
            let model_id := msg.model.getD "unknown"
            let model := if provider ≠ "unknown" then provider ++ "/" ++ model_id
                         else model_id
            let tokens_input_raw := pyOrInt (u.input.getD 0) (u.inputTokens.getD 0)
            let tokens_cache_write := pyOrInt (u.cacheWrite.getD 0) (u.cacheWriteTokens.getD 0)
            let tokens_in := tokens_input_raw + tokens_cache_write
            let tokens_out := pyOrInt (u.output.getD 0) (u.outputTokens.getD 0)
            let tokens_cache_read := pyOrInt (u.cacheRead.getD 0) (u.cacheReadTokens.getD 0)
            let tokens_cache := tokens_cache_read
            let tokens_total := tokens_in + tokens_out + tokens_cache
            let cost_db := get_cost db model tokens_input_raw tokens_out
              tokens_cache_read tokens_cache_write
            let cost := if cost_db > 0 then cost_db
                        else usage_cost_from_payload u.cost u.totalCost
            { st with
              model_stats := aupd st.model_stats model (fun o =>
                let s := o.getD {}
                { tokens_in := s.tokens_in + tokens_in,
                  tokens_out := s.tokens_out + tokens_out,
                  tokens_cache := s.tokens_cache + tokens_cache,
                  cost := s.cost + cost,
                  messages := s.messages + 1 }),
              daily := aupd st.daily msg_date (fun o =>
                let d := o.getD {}
                { tokens_in := d.tokens_in + tokens_in,
                  tokens_out := d.tokens_out + tokens_out,
                  tokens_cacheRead := d.tokens_cacheRead + tokens_cache,
                  tokens_total := d.tokens_total + tokens_total,
                  cost := d.cost + cost,
                  messages := d.messages + 1,
                  sources := aupd d.sources model (fun so =>
                    let sr := so.getD {}
                    { tokens_in := sr.tokens_in + tokens_in,
                      tokens_out := sr.tokens_out + tokens_out,
                      tokens_cacheRead := sr.tokens_cacheRead + tokens_cache,
                      tokens_total := sr.tokens_total + tokens_total,
                      cost := sr.cost + cost,
                      messages := sr.messages + 1 }) }) }

/-- CPython `round(x, 6)` on the exact value: round half to even at six
decimal places. -/
def pyRound6 (q : ℚ) : ℚ :=
  let x := q * 1000000
  let f := Int.floor x
  let r := x - f
  let n := if r < 1 / 2 then f
           else if r > 1 / 2 then f + 1
           else if f % 2 = 0 then f else f + 1
  (n : ℚ) / 1000000

/-- A finished per-model output row of `get_session_usage`. -/
structure OclModelRow where
  tokens : Int
  tokens_in : Int
  tokens_out : Int
  tokens_cache : Int
  cost : ℚ
  messages : Int
deriving DecidableEq, Repr

/-- The result dict of `get_session_usage`. -/
structure OclResult where
  total_tokens : Int
  total_cost : ℚ
  total_messages : Int
  models : List (String × OclModelRow)
  contributions : List DayContribution
deriving DecidableEq, Repr

/-- Build one `sources[]` element of a day contribution: the `cacheWrite`
and `reasoning` buckets are the literal constant 0. -/
def ocl_build_source (model : String) (src : OclDaySrc) : DaySource :=
  { source := "openclaw",
    modelId := model,
    providerId := if model.toList.contains '/' then
        (⟨model.toList.takeWhile (· ≠ '/')⟩ : String)
      else "unknown",
    tokens := { input := src.tokens_in, output := src.tokens_out,
                cacheRead := src.tokens_cacheRead, cacheWrite := 0, reasoning := 0 },
    cost := src.cost,
    messages := src.messages }

/-- Build one finished day contribution: the `cacheWrite` and `reasoning`
buckets are the literal constant 0; the day cost is rounded to six
decimals. -/
def ocl_build_day (date : String) (d : OclDay) : DayContribution :=
  { date := date,
    totals := { tokens := d.tokens_total, cost := pyRound6 d.cost, messages := d.messages },
    intensity := 0,
    tokenBreakdown := { input := d.tokens_in, output := d.tokens_out,
                        cacheRead := d.tokens_cacheRead, cacheWrite := 0, reasoning := 0 },
    sources := d.sources.map (fun p => ocl_build_source p.1 p.2) }

/-- `openclaw.get_session_usage` over the decoded session records. -/
def get_session_usage (db : PricingDatabase) (since untilB : Option ℚ)
    (dateOf : ℚ → String) (entries : List OclEntry) : OclResult :=
  let st := entries.foldl (ocl_step db since untilB dateOf) {}
  let models := st.model_stats.map (fun p =>
    (p.1, { tokens := p.2.tokens_in + p.2.tokens_out + p.2.tokens_cache,
            tokens_in := p.2.tokens_in,
            tokens_out := p.2.tokens_out,
            tokens_cache := p.2.tokens_cache,
            cost := p.2.cost,
            messages := p.2.messages : OclModelRow }))
  { total_tokens := (models.map (·.2.tokens)).sum,
    total_cost := (models.map (·.2.cost)).sum,
    total_messages := st.total_messages,
    models := models,
    contributions := (sortDates (st.daily.map (·.1))).filterMap
      (fun k => (alookup st.daily k).map (ocl_build_day k)) }

/-! ### The contribution/calendar merger of `compute.compute_stats` -/

/-- `s.lower()` on a whole string. -/
def lowerStr (s : String) : String :=
  ⟨s.toList.map Char.toLower⟩

/-- The source-family de-duplication applied to the coding-tools series
before merging: drop `sources` whose `source` lowercases to `"openclaw"`. -/
def strip_openclaw_sources (l : List DayContribution) : List DayContribution :=
  l.map (fun day =>
    { day with sources := day.sources.filter (fun s => lowerStr s.source ≠ "openclaw") })

/-- `{c.get("date"): c for c in series}`: a date-keyed map of a
contribution series (a later duplicate date overwrites an earlier one). -/
def toDateMap (l : List DayContribution) : List (String × DayContribution) :=
  l.foldl (fun m c => aupd m c.date (fun _ => c)) []

/-- The merged record for a date present in both series: every numeric
field of `totals` and `tokenBreakdown` is summed, `intensity` is the
maximum, `sources` are concatenated (session-log side first). -/
def mergeDayRecords (date : String) (o c : DayContribution) : DayContribution :=
  { date := date,
    totals := { tokens := o.totals.tokens + c.totals.tokens,
                cost := o.totals.cost + c.totals.cost,
                messages := o.totals.messages + c.totals.messages },
    intensity := max o.intensity c.intensity,
    tokenBreakdown := { input := o.tokenBreakdown.input + c.tokenBreakdown.input,
                        output := o.tokenBreakdown.output + c.tokenBreakdown.output,
                        cacheRead := o.tokenBreakdown.cacheRead + c.tokenBreakdown.cacheRead,
                        cacheWrite := o.tokenBreakdown.cacheWrite + c.tokenBreakdown.cacheWrite,
                        reasoning := o.tokenBreakdown.reasoning + c.tokenBreakdown.reasoning },
    sources := o.sources ++ c.sources }

/-- The merge loop of `compute_stats`: iterate over the sorted union of the
two date-key sets; dates present in both series are merged with
`mergeDayRecords`, dates present in one pass through unchanged. -/
def merge_contributions (ocl coding : List DayContribution) : List DayContribution :=
  let om := toDateMap ocl
  let cm := toDateMap coding
  let all_dates := sortDates ((om.map (·.1) ++ cm.map (·.1)).dedup)
  all_dates.filterMap (fun d =>
    match alookup om d, alookup cm d with
    | some o, some c => some (mergeDayRecords d o c)
    | some o, none => some o
    | none, some c => some c
    | none, none => none)

/-- Find the merged record of a given date. -/
def findDay (l : List DayContribution) (d : String) : Option DayContribution :=
  l.find? (fun x => x.date = d)

/-! ### `coding_tools.BaseParser._in_range` -/

/-- `BaseParser._in_range`: the shared range filter of the coding-tool
parsers (Codex, Claude, Gemini CLI).  `_to_utc` preserves the instant on
aware datetimes, so it is the identity here; a present `since` excludes
`t < since`, a present `until` excludes `t >= until`, absent bounds impose
nothing: the window is the half-open `[since, until)`. -/
def in_range (ts : ℚ) (since untilB : Option ℚ) : Bool :=
  if (match since with | some s => decide (ts < s) | none => false) then false
  else if (match untilB with | some u => decide (ts ≥ u) | none => false) then false
  else true

/-- Unwrap an aggregation result known to be successful (`[]` on error);
used to name concrete builder outputs in witnesses. -/
def okOr (x : Except Unit (List DayContribution)) : List DayContribution :=
  match x with
  | .ok r => r
  | .error _ => []

/-! ### Association-list lemmas -/

theorem alookup_nil [DecidableEq κ] (k : κ) :
    alookup ([] : List (κ × α)) k = none := rfl

theorem alookup_cons [DecidableEq κ] (k' : κ) (v : α) (m : List (κ × α)) (k : κ) :
    alookup ((k', v) :: m) k = if k' = k then some v else alookup m k := by
  by_cases h : k' = k <;> simp [alookup, List.find?_cons, h]

theorem alookup_aupd [DecidableEq κ] (m : List (κ × α)) (k : κ)
    (f : Option α → α) (k' : κ) :
    alookup (aupd m k f) k' =
      if k = k' then some (f (alookup m k)) else alookup m k' := by
  induction m with
  | nil =>
    by_cases h : k = k' <;> simp [aupd, alookup_cons, alookup_nil, h]
  | cons p m ih =>
    obtain ⟨k₀, v⟩ := p
    by_cases h0 : k₀ = k
    · subst h0
      by_cases h : k₀ = k' <;> simp [aupd, alookup_cons, h]
    · by_cases h : k₀ = k'
      · subst h
        have hkk : ¬ k = k₀ := fun hh => h0 hh.symm
        simp [aupd, h0, alookup_cons, hkk]
      · simp [aupd, h0, alookup_cons, h, ih]

/-- Membership in an updated association list: every element is an original
one or carries the updated value. -/
theorem mem_aupd [DecidableEq κ] (m : List (κ × α)) (k : κ) (f : Option α → α)
    (p : κ × α) (hp : p ∈ aupd m k f) :
    p ∈ m ∨ ∃ o : Option α, (∀ a, o = some a → (p.1, a) ∈ m) ∧ p.2 = f o := by
  induction m generalizing p with
  | nil =>
    simp only [aupd, List.mem_singleton] at hp
    subst hp
    refine Or.inr ⟨none, ?_, rfl⟩
    intro a ha
    cases ha
  | cons q m ih =>
    obtain ⟨k₀, v⟩ := q
    by_cases h0 : k₀ = k
    · have hrw : aupd ((k₀, v) :: m) k f = (k₀, f (some v)) :: m := by
        simp [aupd, h0]
      rw [hrw, List.mem_cons] at hp
      rcases hp with hp | hp
      · subst hp
        refine Or.inr ⟨some v, ?_, rfl⟩
        intro a ha
        cases ha
        exact List.mem_cons_self _ _
      · exact Or.inl (List.mem_cons_of_mem _ hp)
    · have hrw : aupd ((k₀, v) :: m) k f = (k₀, v) :: aupd m k f := by
        simp [aupd, h0]
      rw [hrw, List.mem_cons] at hp
      rcases hp with hp | hp
      · subst hp
        exact Or.inl (List.mem_cons_self _ _)
      · rcases ih _ hp with h | ⟨o, ho, hval⟩
        · exact Or.inl (List.mem_cons_of_mem _ h)
        · exact Or.inr ⟨o, fun a ha => List.mem_cons_of_mem _ (ho a ha), hval⟩

/-! ### A generic characterization of dict-accumulation folds -/

/-- One get-or-create accumulation step on a keyed map. -/
def aggStep [DecidableEq κ] (keyOf : β → κ) (init : κ → α) (bump : α → β → α)
    (m : List (κ × α)) (e : β) : List (κ × α) :=
  aupd m (keyOf e) (fun o => bump (o.getD (init (keyOf e))) e)

/-- Looking a key up after folding a list of events through `aggStep`:
the result collects exactly the events with that key, folded over the
previous value (or the fresh `init`). -/
theorem alookup_foldl_aggStep [DecidableEq κ] (keyOf : β → κ) (init : κ → α)
    (bump : α → β → α) (l : List β) (m : List (κ × α)) (k : κ) :
    alookup (l.foldl (aggStep keyOf init bump) m) k =
      (if (l.filter (fun e => keyOf e = k)).isEmpty then alookup m k
       else some ((l.filter (fun e => keyOf e = k)).foldl bump
          ((alookup m k).getD (init k)))) := by
  induction l generalizing m with
  | nil => simp
  | cons e l ih =>
    by_cases hk : keyOf e = k
    · have hstep : alookup (aggStep keyOf init bump m e) k =
          some (bump ((alookup m k).getD (init k)) e) := by
        simp [aggStep, alookup_aupd, hk]
      have hfil : (e :: l).filter (fun x => keyOf x = k) =
          e :: l.filter (fun x => keyOf x = k) := by
        simp [List.filter_cons, hk]
      rw [List.foldl_cons, ih, hstep, hfil]
      by_cases hemp : (l.filter (fun x => keyOf x = k)).isEmpty
      · rw [if_pos hemp]
        have hnil : l.filter (fun x => keyOf x = k) = [] := by
          simpa [List.isEmpty_iff] using hemp
        simp [hnil]
      · rw [if_neg hemp]
        have : ((e :: l.filter (fun x => keyOf x = k)).isEmpty) = false := by simp
        simp only [this, Bool.false_eq_true, if_false, List.foldl_cons,
          Option.getD_some]
    · have hstep : alookup (aggStep keyOf init bump m e) k = alookup m k := by
        simp [aggStep, alookup_aupd, hk]
      have hfil : (e :: l).filter (fun x => keyOf x = k) =
          l.filter (fun x => keyOf x = k) := by
        simp [List.filter_cons, hk]
      rw [List.foldl_cons, ih, hstep, hfil]

/-- Sum of a projection over the values of one accumulation step: the step
adds exactly its event's weight. -/
theorem sum_aupd_bump [DecidableEq κ] [AddCommMonoid γ] (proj : α → γ) (w : γ)
    (m : List (κ × α)) (k : κ) (g : Option α → α)
    (h1 : proj (g none) = w) (h2 : ∀ a, proj (g (some a)) = proj a + w) :
    ((aupd m k g).map (fun p => proj p.2)).sum =
      (m.map (fun p => proj p.2)).sum + w := by
  induction m with
  | nil => simp [aupd, h1]
  | cons q m ih =>
    obtain ⟨k₀, v⟩ := q
    by_cases h0 : k₀ = k
    · simp [aupd, h0, h2, add_assoc, add_comm, add_left_comm]
    · have hrw : aupd ((k₀, v) :: m) k g = (k₀, v) :: aupd m k g := by
        simp [aupd, h0]
      rw [hrw]
      simp only [List.map_cons, List.sum_cons, ih]
      rw [add_assoc]

/-- Sum of a projection over the values of an accumulation fold: the fold
adds exactly the weights of the folded events. -/
theorem sum_foldl_aggStep [DecidableEq κ] [AddCommMonoid γ]
    (keyOf : β → κ) (init : κ → α) (bump : α → β → α)
    (proj : α → γ) (w : β → γ)
    (hb : ∀ r e, proj (bump r e) = proj r + w e) (hi : ∀ k, proj (init k) = 0)
    (l : List β) (m : List (κ × α)) :
    ((l.foldl (aggStep keyOf init bump) m).map (fun p => proj p.2)).sum =
      (m.map (fun p => proj p.2)).sum + (l.map w).sum := by
  induction l generalizing m with
  | nil => simp
  | cons e l ih =>
    rw [List.foldl_cons, ih]
    have hsum : ((aggStep keyOf init bump m e).map (fun p => proj p.2)).sum =
        (m.map (fun p => proj p.2)).sum + w e := by
      refine sum_aupd_bump proj (w e) m (keyOf e) _ ?_ ?_
      · simp [hb, hi]
      · intro a; simp [hb]
    rw [hsum]
    simp [add_assoc]

/-- Folding a permuted list with a commuting step gives the same result. -/
theorem foldl_perm_of_comm {f : α → β → α}
    (hc : ∀ a e₁ e₂, f (f a e₁) e₂ = f (f a e₂) e₁)
    {l₁ l₂ : List β} (h : l₁.Perm l₂) : ∀ a, l₁.foldl f a = l₂.foldl f a := by
  induction h with
  | nil => intro a; rfl
  | cons x _ ih => intro a; simp [List.foldl_cons, ih]
  | swap x y l => intro a; simp [List.foldl_cons, hc]
  | trans _ _ ih₁ ih₂ => intro a; rw [ih₁, ih₂]

/-! ### Decomposing the `parse_entries_json` fold -/

/-- Rows that survive the empty-row suppression. -/
def entry_visible (e : Entry) : Bool := entry_total_tokens e ≠ 0

theorem parse_fold_apps (db : PricingDatabase) (l : List Entry) (st : AggState) :
    (l.foldl (parse_step db) st).apps =
      (l.filter entry_visible).foldl
        (aggStep (fun e => e.source) app_init (app_bump db)) st.apps := by
  induction l generalizing st with
  | nil => rfl
  | cons e l ih =>
    by_cases h : entry_total_tokens e = 0
    · have hv : entry_visible e = false := by simp [entry_visible, h]
      simp [List.foldl_cons, List.filter_cons, hv, parse_step, h, ih]
    · have hv : entry_visible e = true := by simp [entry_visible, h]
      simp only [List.foldl_cons, List.filter_cons, hv, if_pos, ih]
      congr 1
      simp [parse_step, h, aggStep]

theorem parse_fold_all_models (db : PricingDatabase) (l : List Entry) (st : AggState) :
    (l.foldl (parse_step db) st).all_models =
      (l.filter entry_visible).foldl
        (aggStep (fun e => (e.source, full_model_name e)) global_init (global_bump db))
        st.all_models := by
  induction l generalizing st with
  | nil => rfl
  | cons e l ih =>
    by_cases h : entry_total_tokens e = 0
    · have hv : entry_visible e = false := by simp [entry_visible, h]
      simp [List.foldl_cons, List.filter_cons, hv, parse_step, h, ih]
    · have hv : entry_visible e = true := by simp [entry_visible, h]
      simp only [List.foldl_cons, List.filter_cons, hv, if_pos, ih]
      congr 1
      simp [parse_step, h, aggStep]

theorem models_dict_foldl (db : PricingDatabase) (es : List Entry) (a : AppRow) :
    (es.foldl (app_bump db) a).models_dict =
      es.foldl (aggStep full_model_name model_init (model_bump db)) a.models_dict := by
  induction es generalizing a with
  | nil => rfl
  | cons e es ih =>
    rw [List.foldl_cons, List.foldl_cons, ih]
    rfl

/-! ### Numeric row totals and their commutativity -/

/-- The six running totals of an aggregated row. -/
@[ext] structure RowTotals where
  tokens : Int := 0
  tokens_in : Int := 0
  tokens_out : Int := 0
  tokens_cache : Int := 0
  cost : ℚ := 0
  messages : Int := 0
deriving DecidableEq, Repr

/-- The numeric totals of an app row (dropping the nested model dict). -/
def appTotals (a : AppRow) : RowTotals :=
  ⟨a.tokens, a.tokens_in, a.tokens_out, a.tokens_cache, a.cost, a.messages⟩

/-- The per-entry contribution to a row's totals. -/
def entryTotalsOf (db : PricingDatabase) (e : Entry) : RowTotals :=
  ⟨entry_total_tokens e, entry_tokens_in e, e.output, e.cacheRead,
   entry_cost db e, entry_messages e⟩

/-- Fieldwise addition of totals. -/
def addTotals (t u : RowTotals) : RowTotals :=
  ⟨t.tokens + u.tokens, t.tokens_in + u.tokens_in, t.tokens_out + u.tokens_out,
   t.tokens_cache + u.tokens_cache, t.cost + u.cost, t.messages + u.messages⟩

/-- The totals evolution of one fold step. -/
def totals_bump (db : PricingDatabase) (t : RowTotals) (e : Entry) : RowTotals :=
  addTotals t (entryTotalsOf db e)

theorem appTotals_app_bump (db : PricingDatabase) (a : AppRow) (e : Entry) :
    appTotals (app_bump db a e) = totals_bump db (appTotals a) e := rfl

theorem appTotals_foldl (db : PricingDatabase) (es : List Entry) (a : AppRow) :
    appTotals (es.foldl (app_bump db) a) =
      es.foldl (totals_bump db) (appTotals a) := by
  induction es generalizing a with
  | nil => rfl
  | cons e es ih => rw [List.foldl_cons, List.foldl_cons, ih, appTotals_app_bump]

theorem totals_bump_comm (db : PricingDatabase) (t : RowTotals) (e₁ e₂ : Entry) :
    totals_bump db (totals_bump db t e₁) e₂ =
      totals_bump db (totals_bump db t e₂) e₁ := by
  ext <;> simp [totals_bump, addTotals] <;> ring

theorem model_bump_comm (db : PricingDatabase) (m : ModelRow) (e₁ e₂ : Entry) :
    model_bump db (model_bump db m e₁) e₂ =
      model_bump db (model_bump db m e₂) e₁ := by
  simp [model_bump, ModelRow.mk.injEq, add_right_comm]

theorem global_bump_comm (db : PricingDatabase) (g : GlobalRow) (e₁ e₂ : Entry) :
    global_bump db (global_bump db g e₁) e₂ =
      global_bump db (global_bump db g e₂) e₁ := by
  simp [global_bump, GlobalRow.mk.injEq, add_right_comm]

/-! ### Per-key characterizations of the aggregation -/

theorem apps_lookup_char (db : PricingDatabase) (l : List Entry) (src : String) :
    alookup (parse_entries_agg db l).apps src =
      (if (((l.filter entry_visible).filter (fun e => e.source = src)).isEmpty) then none
       else some (((l.filter entry_visible).filter (fun e => e.source = src)).foldl
        (app_bump db) (app_init src))) := by
  unfold parse_entries_agg
  rw [parse_fold_apps, alookup_foldl_aggStep]
  rfl

theorem all_models_lookup_char (db : PricingDatabase) (l : List Entry)
    (key : String × String) :
    alookup (parse_entries_agg db l).all_models key =
      (if (((l.filter entry_visible).filter
          (fun e => (e.source, full_model_name e) = key)).isEmpty) then none
       else some (((l.filter entry_visible).filter
          (fun e => (e.source, full_model_name e) = key)).foldl
        (global_bump db) (global_init key))) := by
  unfold parse_entries_agg
  rw [parse_fold_all_models, alookup_foldl_aggStep]
  rfl

theorem app_model_lookup_char (db : PricingDatabase) (l : List Entry)
    (src fm : String) :
    ((alookup (parse_entries_agg db l).apps src).bind
        (fun a => alookup a.models_dict fm)) =
      (if ((((l.filter entry_visible).filter (fun e => e.source = src)).filter
          (fun e => full_model_name e = fm)).isEmpty) then none
       else some ((((l.filter entry_visible).filter (fun e => e.source = src)).filter
          (fun e => full_model_name e = fm)).foldl
        (model_bump db) (model_init fm))) := by
  rw [apps_lookup_char]
  by_cases hemp : ((l.filter entry_visible).filter (fun e => e.source = src)).isEmpty
  · have hnil : (l.filter entry_visible).filter (fun e => e.source = src) = [] := by
      simpa [List.isEmpty_iff] using hemp
    simp [hemp, hnil]
  · rw [if_neg hemp]
    have hmd : ((((l.filter entry_visible).filter (fun e => e.source = src)).foldl
        (app_bump db) (app_init src)).models_dict) =
        (((l.filter entry_visible).filter (fun e => e.source = src)).foldl
          (aggStep full_model_name model_init (model_bump db)) []) := by
      rw [models_dict_foldl]
      rfl
    show alookup ((((l.filter entry_visible).filter (fun e => e.source = src)).foldl
        (app_bump db) (app_init src)).models_dict) fm = _
    rw [hmd, alookup_foldl_aggStep]
    rfl

/-- Grand totals: each is the corresponding sum over the visible entries. -/
theorem parse_totals_char (db : PricingDatabase) (l : List Entry) :
    (parse_entries_json db l).total_tokens =
        ((l.filter entry_visible).map entry_total_tokens).sum
  ∧ (parse_entries_json db l).total_cost =
        ((l.filter entry_visible).map (entry_cost db)).sum
  ∧ (parse_entries_json db l).total_messages =
        ((l.filter entry_visible).map entry_messages).sum := by
  have hperm : (sortByCostDesc (fun g => g.cost)
      ((parse_entries_agg db l).all_models.map (·.2))).Perm
      ((parse_entries_agg db l).all_models.map (·.2)) :=
    List.perm_insertionSort _ _
  have hmodels : (parse_entries_agg db l).all_models =
      (l.filter entry_visible).foldl
        (aggStep (fun e => (e.source, full_model_name e)) global_init (global_bump db))
        [] := by
    unfold parse_entries_agg
    rw [parse_fold_all_models]
  refine ⟨?_, ?_, ?_⟩
  · show ((sortByCostDesc (fun g => g.cost)
        ((parse_entries_agg db l).all_models.map (·.2))).map (·.tokens)).sum = _
    rw [(hperm.map (·.tokens)).sum_eq, List.map_map, hmodels]
    have := sum_foldl_aggStep (fun e : Entry => (e.source, full_model_name e))
      global_init (global_bump db) (fun g => g.tokens) entry_total_tokens
      (fun r e => rfl) (fun k => rfl) (l.filter entry_visible) []
    simpa using this
  · show ((sortByCostDesc (fun g => g.cost)
        ((parse_entries_agg db l).all_models.map (·.2))).map (·.cost)).sum = _
    rw [(hperm.map (·.cost)).sum_eq, List.map_map, hmodels]
    have := sum_foldl_aggStep (fun e : Entry => (e.source, full_model_name e))
      global_init (global_bump db) (fun g => g.cost) (entry_cost db)
      (fun r e => rfl) (fun k => rfl) (l.filter entry_visible) []
    simpa using this
  · show ((sortByCostDesc (fun g => g.cost)
        ((parse_entries_agg db l).all_models.map (·.2))).map (·.messages)).sum = _
    rw [(hperm.map (·.messages)).sum_eq, List.map_map, hmodels]
    have := sum_foldl_aggStep (fun e : Entry => (e.source, full_model_name e))
      global_init (global_bump db) (fun g => g.messages) entry_messages
      (fun r e => rfl) (fun k => rfl) (l.filter entry_visible) []
    simpa using this

theorem perm_isEmpty {l₁ l₂ : List α} (h : l₁.Perm l₂) : l₁.isEmpty = l₂.isEmpty := by
  cases l₁ <;> cases l₂ <;> simp_all

/-- C7: Aggregation is order-independent: folding any permutation of the
entry list through `parse_entries_json` yields identical running totals
(tokens, tokens_in, tokens_out, tokens_cache, cost, messages) for every app
row, for every per-app and per-(source, model) model row, and identical
grand totals. -/
theorem C7_aggregation_order_independent (db : PricingDatabase)
    (l₁ l₂ : List Entry) (h : l₁.Perm l₂) :
    (∀ src, (alookup (parse_entries_agg db l₁).apps src).map appTotals =
            (alookup (parse_entries_agg db l₂).apps src).map appTotals)
  ∧ (∀ src fm,
      ((alookup (parse_entries_agg db l₁).apps src).bind
        (fun a => alookup a.models_dict fm)) =
      ((alookup (parse_entries_agg db l₂).apps src).bind
        (fun a => alookup a.models_dict fm)))
  ∧ (∀ key, alookup (parse_entries_agg db l₁).all_models key =
            alookup (parse_entries_agg db l₂).all_models key)
  ∧ (parse_entries_json db l₁).total_tokens = (parse_entries_json db l₂).total_tokens
  ∧ (parse_entries_json db l₁).total_cost = (parse_entries_json db l₂).total_cost
  ∧ (parse_entries_json db l₁).total_messages
      = (parse_entries_json db l₂).total_messages := by
  have hv : (l₁.filter entry_visible).Perm (l₂.filter entry_visible) := h.filter _
  refine ⟨?_, ?_, ?_, ?_, ?_, ?_⟩
  · intro src
    have hs : ((l₁.filter entry_visible).filter (fun e => e.source = src)).Perm
        ((l₂.filter entry_visible).filter (fun e => e.source = src)) := hv.filter _
    rw [apps_lookup_char, apps_lookup_char, perm_isEmpty hs]
    by_cases hemp :
        ((l₂.filter entry_visible).filter (fun e => e.source = src)).isEmpty
    · rw [if_pos hemp, if_pos hemp]
    · rw [if_neg hemp, if_neg hemp]
      simp only [Option.map_some']
      congr 1
      rw [appTotals_foldl, appTotals_foldl]
      exact foldl_perm_of_comm (totals_bump_comm db) hs _
  · intro src fm
    have hs : (((l₁.filter entry_visible).filter (fun e => e.source = src)).filter
          (fun e => full_model_name e = fm)).Perm
        (((l₂.filter entry_visible).filter (fun e => e.source = src)).filter
          (fun e => full_model_name e = fm)) := (hv.filter _).filter _
    rw [app_model_lookup_char, app_model_lookup_char, perm_isEmpty hs]
    by_cases hemp : ((((l₂.filter entry_visible).filter
        (fun e => e.source = src)).filter (fun e => full_model_name e = fm)).isEmpty)
    · rw [if_pos hemp, if_pos hemp]
    · rw [if_neg hemp, if_neg hemp]
      congr 1
      exact foldl_perm_of_comm (model_bump_comm db) hs _
  · intro key
    have hs : ((l₁.filter entry_visible).filter
          (fun e => (e.source, full_model_name e) = key)).Perm
        ((l₂.filter entry_visible).filter
          (fun e => (e.source, full_model_name e) = key)) := hv.filter _
    rw [all_models_lookup_char, all_models_lookup_char, perm_isEmpty hs]
    by_cases hemp : (((l₂.filter entry_visible).filter
        (fun e => (e.source, full_model_name e) = key)).isEmpty)
    · rw [if_pos hemp, if_pos hemp]
    · rw [if_neg hemp, if_neg hemp]
      congr 1
      exact foldl_perm_of_comm (global_bump_comm db) hs _
  · rw [(parse_totals_char db l₁).1, (parse_totals_char db l₂).1]
    exact (hv.map entry_total_tokens).sum_eq
  · rw [(parse_totals_char db l₁).2.1, (parse_totals_char db l₂).2.1]
    exact (hv.map (entry_cost db)).sum_eq
  · rw [(parse_totals_char db l₁).2.2, (parse_totals_char db l₂).2.2]
    exact (hv.map entry_messages).sum_eq

/-- Witness for C7: a concrete two-entry list and its transposition agree on
the grand token total and on the "claude" app row. -/
theorem C7_aggregation_order_independent_witness :
    (parse_entries_json sampleDb
        [{ source := "claude", model := "m1", input := 5, output := 2 },
         { source := "codex", model := "m2", input := 1, output := 3 }]).total_tokens =
    (parse_entries_json sampleDb
        [{ source := "codex", model := "m2", input := 1, output := 3 },
         { source := "claude", model := "m1", input := 5, output := 2 }]).total_tokens ∧
    (alookup (parse_entries_agg sampleDb
        [{ source := "claude", model := "m1", input := 5, output := 2 },
         { source := "codex", model := "m2", input := 1, output := 3 }]).apps
      "claude").map appTotals =
    (alookup (parse_entries_agg sampleDb
        [{ source := "codex", model := "m2", input := 1, output := 3 },
         { source := "claude", model := "m1", input := 5, output := 2 }]).apps
      "claude").map appTotals :=
  ⟨(C7_aggregation_order_independent sampleDb _ _ (by decide)).2.2.2.1,
   (C7_aggregation_order_independent sampleDb _ _ (by decide)).1 "claude"⟩

/-! ### Per-entry contribution of the aggregation -/

/-- The row a single visible entry creates in `all_models_dict`. -/
theorem singleton_global_row (db : PricingDatabase) (e : Entry)
    (h : entry_total_tokens e ≠ 0) :
    alookup (parse_entries_agg db [e]).all_models (e.source, full_model_name e) =
      some { source := e.source, name := full_model_name e,
             tokens := entry_tokens_in e + e.output + e.cacheRead,
             tokens_in := entry_tokens_in e,
             tokens_out := e.output,
             tokens_cache := e.cacheRead,
             cost := entry_cost db e,
             messages := entry_messages e } := by
  rw [all_models_lookup_char]
  have hv : entry_visible e = true := by simp [entry_visible, h]
  have h1 : ([e].filter entry_visible) = [e] := by simp [hv]
  rw [h1]
  have h2 : [e].filter
      (fun x => (x.source, full_model_name x) = (e.source, full_model_name e)) = [e] := by
    simp
  rw [h2]
  simp [global_bump, global_init, entry_total_tokens]

/-- C1: billable token semantics of the aggregation engine: for every entry
folded by `parse_entries_json`, the row receives
`tokens_in = input_raw + cache_write`, `tokens_cache = cache_read`, and
`tokens = tokens_in + tokens_out + tokens_cache`; in particular the entry
with `input=5, cacheWrite=27000, cacheRead=100, output=50` contributes
`tokens_in=27005, tokens_out=50, tokens_cache=100, tokens=27155` to its
model bucket, and the same values appear in the corresponding day's
`tokenBreakdown` (with day total 27155). -/
theorem C1_billable_token_semantics :
    (∀ (db : PricingDatabase) (e : Entry), entry_total_tokens e ≠ 0 →
      alookup (parse_entries_agg db [e]).all_models (e.source, full_model_name e) =
        some { source := e.source, name := full_model_name e,
               tokens := (e.input + e.cacheWrite) + e.output + e.cacheRead,
               tokens_in := e.input + e.cacheWrite,
               tokens_out := e.output,
               tokens_cache := e.cacheRead,
               cost := entry_cost db e,
               messages := entry_messages e })
  ∧ ((alookup (parse_entries_agg sampleDb
        [{ source := "claude", model := "claude-opus-4.6", provider := "github-copilot",
           input := 5, output := 50, cacheRead := 100, cacheWrite := 27000,
           timestamp := .jint 1700000000000 }]).all_models
        ("claude", "github-copilot/claude-opus-4.6")).map
          (fun g => (g.tokens_in, g.tokens_out, g.tokens_cache, g.tokens)) =
      some (27005, 50, 100, 27155))
  ∧ ((contributions_from_entries (fun _ => "2023-11-14")
        [{ source := "claude", model := "claude-opus-4.6", provider := "github-copilot",
           input := 5, output := 50, cacheRead := 100, cacheWrite := 27000,
           timestamp := .jint 1700000000000 }]).toOption.map
        (fun days => days.map (fun d =>
          (d.tokenBreakdown.input, d.tokenBreakdown.output, d.tokenBreakdown.cacheRead,
           d.totals.tokens))) = some [(27005, 50, 100, 27155)]) := by
  refine ⟨?_, by decide, by decide⟩
  intro db e h
  exact singleton_global_row db e h

/-- Witness for C1 at a concrete entry. -/
theorem C1_billable_token_semantics_witness :
    alookup (parse_entries_agg sampleDb
      [{ source := "claude", model := "m", input := 5, output := 50, cacheRead := 100,
         cacheWrite := 27000 }]).all_models ("claude", "m") =
      some { source := "claude", name := "m", tokens := (5 + 27000) + 50 + 100,
             tokens_in := 5 + 27000, tokens_out := 50, tokens_cache := 100,
             cost := entry_cost sampleDb
               { source := "claude", model := "m", input := 5, output := 50,
                 cacheRead := 100, cacheWrite := 27000 },
             messages := 1 } :=
  C1_billable_token_semantics.1 sampleDb
    { source := "claude", model := "m", input := 5, output := 50, cacheRead := 100,
      cacheWrite := 27000 } (by decide)

/-! ### The cache-write bucket is identically zero in day contributions -/

/-- The C9 invariant on a day record. -/
def dayCacheWriteZero (d : DayContribution) : Prop :=
  d.tokenBreakdown.cacheWrite = 0 ∧ ∀ s ∈ d.sources, s.tokens.cacheWrite = 0

theorem dayCacheWriteZero_init (date : String) : dayCacheWriteZero (init_day date) := by
  constructor
  · rfl
  · intro s hs
    cases hs

theorem dayCacheWriteZero_apply (e : Entry) (d : DayContribution)
    (hd : dayCacheWriteZero d) : dayCacheWriteZero (contrib_apply e d) := by
  obtain ⟨h1, h2⟩ := hd
  constructor
  · simp [contrib_apply, h1]
  · intro s hs
    simp only [contrib_apply, List.mem_append, List.mem_singleton] at hs
    rcases hs with hs | hs
    · exact h2 s hs
    · subst hs
      rfl

theorem contributions_go_cacheWriteZero (dateOf : Int → String) :
    ∀ (entries : List Entry) (byDate : List (String × DayContribution)),
      (∀ p ∈ byDate, dayCacheWriteZero p.2) →
      ∀ res, contributions_go dateOf byDate entries = .ok res →
      ∀ d ∈ res, dayCacheWriteZero d := by
  intro entries
  induction entries with
  | nil =>
    intro byDate hinv res hres d hd
    simp only [contributions_go, Except.ok.injEq] at hres
    subst hres
    obtain ⟨k, _, hk2⟩ := List.mem_filterMap.mp hd
    unfold alookup at hk2
    cases hfind : byDate.find? (fun q => q.1 = k) with
    | none => rw [hfind] at hk2; cases hk2
    | some p =>
      rw [hfind] at hk2
      simp only [Option.map_some'] at hk2
      have hmem := List.mem_of_find?_eq_some hfind
      have hp2 := hinv p hmem
      injection hk2 with hk3
      exact hk3 ▸ hp2
  | cons e es ih =>
    intro byDate hinv res hres d hd
    simp only [contributions_go] at hres
    cases hts : pyTsInt e.timestamp with
    | error u => rw [hts] at hres; cases hres
    | ok ts =>
      rw [hts] at hres
      simp only [] at hres
      by_cases hle : ts ≤ 0
      · rw [if_pos hle] at hres
        exact ih byDate hinv res hres d hd
      · rw [if_neg hle] at hres
        refine ih _ ?_ res hres d hd
        intro p hp
        rcases mem_aupd _ _ _ p hp with hmem | ⟨o, ho, hval⟩
        · exact hinv p hmem
        · rw [hval]
          refine dayCacheWriteZero_apply _ _ ?_
          cases o with
          | none => exact dayCacheWriteZero_init _
          | some a => exact hinv (p.1, a) (ho a rfl)

/-- C9: in every `DayContribution` produced by the system — the
coding-tools contribution builder and the openclaw session aggregator —
the `tokenBreakdown.cacheWrite` bucket and every per-source
`tokens.cacheWrite` bucket are exactly 0: cache-write tokens are folded
into the input bucket and never reported under `cacheWrite`. -/
theorem C9_cacheWrite_bucket_zero :
    (∀ (dateOf : Int → String) (entries : List Entry) (res : List DayContribution),
      contributions_from_entries dateOf entries = .ok res →
      ∀ d ∈ res, d.tokenBreakdown.cacheWrite = 0 ∧ ∀ s ∈ d.sources, s.tokens.cacheWrite = 0)
  ∧ (∀ (db : PricingDatabase) (since untilB : Option ℚ) (dateOf : ℚ → String)
       (entries : List OclEntry),
      ∀ d ∈ (get_session_usage db since untilB dateOf entries).contributions,
        d.tokenBreakdown.cacheWrite = 0 ∧ ∀ s ∈ d.sources, s.tokens.cacheWrite = 0) := by
  constructor
  · intro dateOf entries res hres d hd
    exact contributions_go_cacheWriteZero dateOf entries []
      (by intro p hp; cases hp) res hres d hd
  · intro db s u dateOf entries d hd
    simp only [get_session_usage] at hd
    obtain ⟨k, _, hk⟩ := List.mem_filterMap.mp hd
    cases hl : alookup ((entries.foldl (ocl_step db s u dateOf) {}).daily) k with
    | none => rw [hl] at hk; cases hk
    | some day =>
      rw [hl] at hk
      simp only [Option.map_some'] at hk
      injection hk with hk2
      subst hk2
      constructor
      · rfl
      · intro sEl hs
        simp only [ocl_build_day, List.mem_map] at hs
        obtain ⟨pr, _, hpr⟩ := hs
        subst hpr
        rfl

/-- Witness for C9: concrete days produced by both builders carry a zero
`cacheWrite` bucket. -/
theorem C9_cacheWrite_bucket_zero_witness :
    ((okOr (contributions_from_entries (fun _ => "d")
        [{ input := 1, timestamp := .jint 5 }])).headD (init_day "x")).tokenBreakdown.cacheWrite = 0
  ∧ (((get_session_usage { pricing := [], aliases := [] } none none (fun _ => "d")
        [{ type := some "message",
           message := some { role := some "assistant", model := some "m",
                             usage := some { input := some 1 } },
           timestamp := some 100 }]).contributions).headD
      (init_day "x")).tokenBreakdown.cacheWrite = 0 := by
  constructor
  · exact (C9_cacheWrite_bucket_zero.1 (fun _ => "d")
      [{ input := 1, timestamp := .jint 5 }]
      (okOr (contributions_from_entries (fun _ => "d")
        [{ input := 1, timestamp := .jint 5 }])) rfl _
      (List.mem_cons_self _ _)).1
  · exact (C9_cacheWrite_bucket_zero.2 { pricing := [], aliases := [] } none none
      (fun _ => "d")
      [{ type := some "message",
         message := some { role := some "assistant", model := some "m",
                           usage := some { input := some 1 } },
         timestamp := some 100 }] _ (List.mem_cons_self _ _)).1

/-! ### Timestamp handling of the contribution builder -/

theorem contributions_go_skip (dateOf : Int → String) (e : Entry) (t : Int)
    (ht : pyTsInt e.timestamp = .ok t) (hle : t ≤ 0) (l₂ : List Entry) :
    ∀ (l₁ : List Entry) (byDate : List (String × DayContribution)),
      contributions_go dateOf byDate (l₁ ++ e :: l₂) =
      contributions_go dateOf byDate (l₁ ++ l₂) := by
  intro l₁
  induction l₁ with
  | nil =>
    intro byDate
    simp only [List.nil_append, contributions_go, ht, if_pos hle]
  | cons f l₁ ih =>
    intro byDate
    simp only [List.cons_append, contributions_go]
    cases hf : pyTsInt f.timestamp with
    | error u => simp [hf]
    | ok ts =>
      simp only [hf]
      by_cases hts : ts ≤ 0
      · rw [if_pos hts, if_pos hts]
        exact ih byDate
      · rw [if_neg hts, if_neg hts]
        exact ih _

/-- C10 (amended): the coding-tools contribution builder ignores every
entry whose timestamp converts to a non-positive integer (absent and
falsy values convert to 0): the output over a list containing such an
entry equals the output over the list with the entry removed.  An entry
whose timestamp is a non-numeric string is NOT ignored: `int()` raises and
the whole builder aborts (see the counterexample). -/
theorem C10_nonpositive_timestamp_skipped :
    ∀ (dateOf : Int → String) (l₁ l₂ : List Entry) (e : Entry) (t : Int),
      pyTsInt e.timestamp = .ok t → t ≤ 0 →
      contributions_from_entries dateOf (l₁ ++ e :: l₂) =
        contributions_from_entries dateOf (l₁ ++ l₂) := by
  intro dateOf l₁ l₂ e t ht hle
  unfold contributions_from_entries
  exact contributions_go_skip dateOf e t ht hle l₂ l₁ []

/-- Counterexample to C10 as stated: an entry with a non-numeric string
timestamp makes the builder raise (`int("soon")` → `ValueError`), instead
of being ignored — removing the entry gives a successful empty result. -/
theorem C10_nonnumeric_timestamp_raises :
    contributions_from_entries (fun _ => "1970-01-01")
        [{ input := 1, timestamp := .jstr "soon" }] = .error ()
  ∧ contributions_from_entries (fun _ => "1970-01-01") [] = .ok [] :=
  ⟨rfl, rfl⟩

/-- Witness for the amended C10 at a concrete entry with an absent
timestamp. -/
theorem C10_nonpositive_timestamp_skipped_witness :
    contributions_from_entries (fun _ => "d")
        [{ input := 3, timestamp := .jnull }] =
      contributions_from_entries (fun _ => "d") [] :=
  C10_nonpositive_timestamp_skipped (fun _ => "d") [] []
    { input := 3, timestamp := .jnull } 0 rfl (by decide)

/-! ### Range filtering -/

theorem ocl_step_total_messages (db : PricingDatabase) (s u : Option ℚ)
    (dateOf : ℚ → String) (st : OclState) (e : OclEntry) (msg : OclMessage) (t : ℚ)
    (htype : e.type = some "message") (hmsg : e.message = some msg)
    (hrole : msg.role = some "assistant")
    (hdt : parse_message_dt e.timestamp = some t) :
    (ocl_step db s u dateOf st e).total_messages =
      (if (match s with | some sv => decide (t < sv) | none => false) then st.total_messages
       else if (match u with | some uv => decide (t > uv) | none => false) then st.total_messages
       else st.total_messages + 1) := by
  simp only [ocl_step, htype, hmsg, hrole, hdt]
  simp only [ne_eq, not_true_eq_false, if_false, reduceCtorEq]
  cases h1 : (match s with | some sv => decide (t < sv) | none => false) with
  | true => simp [h1]
  | false =>
    simp only [h1, Bool.false_eq_true, if_false]
    cases h2 : (match u with | some uv => decide (t > uv) | none => false) with
    | true => simp [h2]
    | false =>
      simp only [h2, Bool.false_eq_true, if_false]
      cases husage : msg.usage with
      | none => simp
      | some uu =>
        by_cases htr : usageTruthy uu
        · simp [htr]
        · simp [htr]

/-- C3 (amended): the coding-tool parsers share the `BaseParser._in_range`
filter, which keeps exactly the timestamps in the half-open window
`[since, until)` (absent bounds impose nothing); the openclaw session
aggregator, however, filters with a CLOSED upper bound: a message entry is
counted iff `since ≤ t` and `t ≤ until` — a timestamp exactly equal to
`until` is included there. -/
theorem C3_range_semantics :
    (∀ (t : ℚ) (s u : Option ℚ),
      in_range t s u = true ↔ ((∀ sv ∈ s, sv ≤ t) ∧ (∀ uv ∈ u, t < uv)))
  ∧ (∀ (db : PricingDatabase) (dateOf : ℚ → String) (s u : Option ℚ)
       (e : OclEntry) (msg : OclMessage) (t : ℚ),
      e.type = some "message" → e.message = some msg → msg.role = some "assistant" →
      parse_message_dt e.timestamp = some t →
      (get_session_usage db s u dateOf [e]).total_messages =
        (if (∀ sv ∈ s, sv ≤ t) ∧ (∀ uv ∈ u, t ≤ uv) then 1 else 0)) := by
  constructor
  · intro t s u
    cases s <;> cases u <;> simp [in_range, not_lt, and_comm]
  · intro db dateOf s u e msg t htype hmsg hrole hdt
    have htm : (get_session_usage db s u dateOf [e]).total_messages =
        (ocl_step db s u dateOf {} e).total_messages := rfl
    rw [htm, ocl_step_total_messages db s u dateOf {} e msg t htype hmsg hrole hdt]
    rcases s with _ | sv <;> rcases u with _ | uv
    · simp
    · by_cases h2 : t ≤ uv
      · simp [h2, Option.mem_def, not_lt.mpr h2]
      · simp [h2, Option.mem_def, not_le.mp h2]
    · by_cases h1 : sv ≤ t
      · simp [h1, Option.mem_def, not_lt.mpr h1]
      · simp [h1, Option.mem_def, not_le.mp h1]
    · by_cases h1 : sv ≤ t
      · by_cases h2 : t ≤ uv
        · simp [h1, h2, Option.mem_def, not_lt.mpr h1, not_lt.mpr h2]
        · simp [h1, h2, Option.mem_def, not_lt.mpr h1, not_le.mp h2]
      · simp [h1, Option.mem_def, not_le.mp h1]

/-- Counterexample to C3 as stated: in the openclaw session aggregator a
message whose timestamp exactly equals the `until` bound is INCLUDED
(counted), while the claimed half-open `[since, until)` filter would
exclude it. -/
theorem C3_until_bound_inclusive_counterexample :
    (get_session_usage { pricing := [], aliases := [] } none (some 1700000000)
      (fun _ => "d")
      [{ type := some "message", message := some { role := some "assistant" },
         timestamp := some 1700000000 }]).total_messages = 1 := by decide

/-- Witness for C3 at concrete bounds: a message at `t = 50` inside
`[0, 50]` is counted by the session aggregator. -/
theorem C3_range_semantics_witness :
    (get_session_usage { pricing := [], aliases := [] } (some 0) (some 50)
      (fun _ => "d")
      [{ type := some "message", message := some { role := some "assistant" },
         timestamp := some 50 }]).total_messages = 1 := by
  have h := C3_range_semantics.2 { pricing := [], aliases := [] } (fun _ => "d")
    (some 0) (some 50)
    { type := some "message", message := some { role := some "assistant" },
      timestamp := some 50 }
    { role := some "assistant" } 50 rfl rfl rfl (by decide)
  rw [h, if_pos]
  refine ⟨?_, ?_⟩ <;> intro x hx <;> simp only [Option.mem_def, Option.some.injEq] at hx <;>
    subst hx <;> norm_num

/-! ### Resolution over an empty pricing table -/

theorem considerKey_fst_empty (al : List (String × String)) (seen : List String)
    (k : String) : (considerKey { pricing := [], aliases := al } seen k).1 = none := by
  unfold considerKey
  have h : lookupPricing { pricing := [], aliases := al } k = none := rfl
  split_ifs <;> simp [h]

theorem probeKeys_fst_empty (al : List (String × String)) :
    ∀ (ks seen : List String),
      (probeKeys { pricing := [], aliases := al } seen ks).1 = none := by
  intro ks
  induction ks with
  | nil => intro seen; rfl
  | cons k ks ih =>
    intro seen
    rcases hck : considerKey { pricing := [], aliases := al } seen k with ⟨r, s2⟩
    have hr : r = none := by
      have h := considerKey_fst_empty al seen k
      rw [hck] at h
      exact h
    subst hr
    simp only [probeKeys, hck]
    exact ih s2

theorem probeAliases_fst_empty (al : List (String × String)) :
    ∀ (aks seen : List String),
      (probeAliases { pricing := [], aliases := al } seen aks).1 = none := by
  intro aks
  induction aks with
  | nil => intro seen; rfl
  | cons ak aks ih =>
    intro seen
    simp only [probeAliases]
    by_cases h0 : ak = ""
    · simp only [h0, if_pos rfl]
      exact ih seen
    · simp only [if_neg h0]
      cases hla : lookupAlias { pricing := [], aliases := al } ak with
      | none => exact ih seen
      | some tgt =>
        rcases hck : considerKey { pricing := [], aliases := al } seen tgt with ⟨r, s2⟩
        have hr : r = none := by
          have h := considerKey_fst_empty al seen tgt
          rw [hck] at h
          exact h
        subst hr
        simp only [hck]
        exact ih s2

theorem resolve_pricing_empty (al : List (String × String)) (m : String) :
    resolve_pricing { pricing := [], aliases := al } m = none := by
  unfold resolve_pricing
  dsimp only
  split
  · rename_i p x heq
    have h2 := (probeKeys_fst_empty al _ _).symm.trans (congrArg Prod.fst heq)
    simp at h2
  · rename_i seen1 heq
    split
    · rename_i p x heq2
      have h2 := (probeAliases_fst_empty al _ _).symm.trans (congrArg Prod.fst heq2)
      simp at h2
    · exact probeKeys_fst_empty al _ _

/-- C4 (amended): cost computation for an unresolvable model returns 0.0
and never raises — also when the pricing table is empty — and such entries
still appear in the aggregates carrying their token counts; in the
coding-tools aggregation their cost is 0.0, while the openclaw session
aggregator substitutes the payload-recorded cost whenever the recomputed
pricing cost is zero (see the counterexample). -/
theorem C4_unresolvable_model_cost :
    (∀ (aliases : List (String × String)) (m : String) (i o cr cw : Int),
        get_cost { pricing := [], aliases := aliases } m i o cr cw = 0)
  ∧ (∀ (db : PricingDatabase) (m : String) (i o cr cw : Int),
        resolve_pricing db m = none → get_cost db m i o cr cw = 0)
  ∧ (∀ (db : PricingDatabase) (e : Entry),
        resolve_pricing db (full_model_name e) = none → entry_total_tokens e ≠ 0 →
        alookup (parse_entries_agg db [e]).all_models (e.source, full_model_name e) =
          some { source := e.source, name := full_model_name e,
                 tokens := (e.input + e.cacheWrite) + e.output + e.cacheRead,
                 tokens_in := e.input + e.cacheWrite,
                 tokens_out := e.output,
                 tokens_cache := e.cacheRead,
                 cost := 0,
                 messages := entry_messages e })
  ∧ (∀ (uc utc : Option CostVal) (db : PricingDatabase) (m : String) (i o cr cw : Int),
        resolve_pricing db m = none →
        (if get_cost db m i o cr cw > 0 then get_cost db m i o cr cw
         else usage_cost_from_payload uc utc) = usage_cost_from_payload uc utc) := by
  have hnone : ∀ (db : PricingDatabase) (m : String) (i o cr cw : Int),
      resolve_pricing db m = none → get_cost db m i o cr cw = 0 := by
    intro db m i o cr cw h
    simp [get_cost, h]
  refine ⟨?_, hnone, ?_, ?_⟩
  · intro aliases m i o cr cw
    exact hnone _ m i o cr cw (resolve_pricing_empty aliases m)
  · intro db e hres htok
    have h0 : entry_cost db e = 0 := hnone db _ _ _ _ _ hres
    have hrow := singleton_global_row db e htok
    rw [h0] at hrow
    exact hrow
  · intro uc utc db m i o cr cw h
    rw [hnone db m i o cr cw h]
    simp

/-- Counterexample to C4 as stated: with an empty pricing table (model
unresolvable, pricing cost 0.0), the openclaw session aggregator reports
the entry with the PAYLOAD cost 5.0, not 0.0. -/
theorem C4_openclaw_payload_fallback_counterexample :
    ((get_session_usage { pricing := [], aliases := [] } none none (fun _ => "d")
        [{ type := some "message",
           message := some { role := some "assistant", model := some "m",
                             usage := some { input := some 10, cost := some (.num 5) } },
           timestamp := some 100 }]).models.map (fun p => (p.1, p.2.cost))) =
      [("m", 5)] := by
  have h0 : ((get_session_usage { pricing := [], aliases := [] } none none (fun _ => "d")
        [{ type := some "message",
           message := some { role := some "assistant", model := some "m",
                             usage := some { input := some 10, cost := some (.num 5) } },
           timestamp := some 100 }]).models.map (fun p => (p.1, p.2.cost))) =
      [("m", (0 : ℚ) + 5)] := rfl
  rw [h0]
  norm_num

/-- Witness for C4 at concrete inputs. -/
theorem C4_unresolvable_model_cost_witness :
    get_cost { pricing := [], aliases := [] } "mystery-model" 10 20 30 40 = 0
  ∧ alookup (parse_entries_agg { pricing := [], aliases := [] }
      [{ source := "claude", model := "mm", input := 2, output := 3 }]).all_models
      ("claude", "mm") =
      some { source := "claude", name := "mm", tokens := (2 + 0) + 3 + 0,
             tokens_in := 2 + 0, tokens_out := 3, tokens_cache := 0, cost := 0,
             messages := 1 } :=
  ⟨C4_unresolvable_model_cost.1 [] "mystery-model" 10 20 30 40,
   C4_unresolvable_model_cost.2.2.1 { pricing := [], aliases := [] }
     { source := "claude", model := "mm", input := 2, output := 3 }
     (by decide) (by decide)⟩

/-- C2: for every model that resolves to a price record, `get_cost`
returns exactly `(input_raw × input_rate + output × output_rate +
cache_read × cache_read_rate + cache_write × cache_write_rate) /
1,000,000`, the input rate applied to the RAW input tokens, with
`cache_read_rate` defaulting to `0.1 × input_rate` and `cache_write_rate`
defaulting to `input_rate` when absent from the record. -/
theorem C2_get_cost_formula :
    ∀ (db : PricingDatabase) (m : String) (p : PriceRecord) (i o cr cw : Int),
      resolve_pricing db m = some p →
      get_cost db m i o cr cw =
        ((i : ℚ) * p.input.getD 0 + (o : ℚ) * p.output.getD 0 +
         (cr : ℚ) * p.cache_read.getD (p.input.getD 0 * (1 / 10)) +
         (cw : ℚ) * p.cache_write.getD (p.input.getD 0)) / 1000000 := by
  intro db m p i o cr cw h
  simp [get_cost, h]

/-- Witness for C2 at a concrete record with all four rates present. -/
theorem C2_get_cost_formula_witness :
    get_cost sampleDb "kimi-k2.5" 7 11 13 17 =
      ((7 : ℚ) * 1 + 11 * 4 + 13 * 2 + 17 * 3) / 1000000 := by
  have h := C2_get_cost_formula sampleDb "kimi-k2.5"
    { input := some 1, output := some 4, cache_read := some 2, cache_write := some 3 }
    7 11 13 17 (by decide)
  rw [h]
  norm_num

/-- C6: every provider-prefix and Kimi k2.5 spelling variant collapses to
the single canonical key `kimi-k2.5`: in particular `kimi/kimi-k2p5`,
`kimi-coding/kimi-k2.5`, `infi/kimi-2.5`, `kimi-k2-5` and `kimi2.5`. -/
theorem C6_kimi_normalization :
    normalize_model_name "kimi/kimi-k2p5" = "kimi-k2.5" ∧
    normalize_model_name "kimi-coding/kimi-k2.5" = "kimi-k2.5" ∧
    normalize_model_name "infi/kimi-2.5" = "kimi-k2.5" ∧
    normalize_model_name "kimi-k2-5" = "kimi-k2.5" ∧
    normalize_model_name "kimi2.5" = "kimi-k2.5" := by
  refine ⟨?_, ?_, ?_, ?_, ?_⟩ <;> decide

/-- C5: period interpretation: an integer-parseable period string gives
that many days with a minimum of 1; `"month"` always routes to the
calendar-aligned month-to-date range (from the 1st of the current local
month through today) and never to a rolling 30-day window; `"week"` gives
exactly 7 calendar days ending today; any other unrecognized string falls
back to a 1-day window rather than failing. -/
theorem C5_period_semantics :
    (∀ (p : String) (n : Int), pyIntOfString p = some n → period_to_days p = max 1 n)
  ∧ (∀ today : PyDate,
      period_to_range_args today "month" =
        ["--since", fmtDate ⟨today.year, today.month, 1⟩, "--until", fmtDate today]
      ∧ get_session_data_route "month" = .monthToDate
      ∧ get_usage_for_month_since today = ⟨today.year, today.month, 1⟩)
  ∧ (period_to_days "week" = 7
      ∧ ∀ today : PyDate, period_to_range_args today "week" =
          ["--since", fmtDate (dateSubDays today 6), "--until", fmtDate today])
  ∧ (∀ p : String, pyIntOfString p = none →
        p ∉ ["today", "3days", "week", "14days", "month"] →
        period_to_days p = 1
        ∧ (∀ today : PyDate, period_to_range_args today p = ["--today"])
        ∧ get_session_data_route p = .lastDays 1)
  ∧ period_to_range_args ⟨2026, 3, 15⟩ "month"
      = ["--since", "2026-03-01", "--until", "2026-03-15"]
  ∧ period_to_range_args ⟨2026, 3, 15⟩ "month"
      ≠ ["--since", fmtDate (dateSubDays ⟨2026, 3, 15⟩ 29), "--until",
         fmtDate ⟨2026, 3, 15⟩] := by
  refine ⟨?_, ?_, ⟨by decide, ?_⟩, ?_, by decide, by decide⟩
  · intro p n h
    simp [period_to_days, h]
  · intro today
    refine ⟨?_, by decide, rfl⟩
    simp [period_to_range_args]
  · intro today
    have h7 : period_to_days "week" = 7 := by decide
    have hm : ("week" = "month") = False := by simp
    simp only [period_to_range_args, hm, if_false, h7]
    norm_num
  · intro p hint hmem
    have h1 : period_to_days p = 1 := by
      have hfind : periodMapping.find? (fun q => q.1 = p) = none := by
        have ht : ¬ ("today" = p) := fun hc => hmem (by simp [← hc])
        have h3 : ¬ ("3days" = p) := fun hc => hmem (by simp [← hc])
        have hw : ¬ ("week" = p) := fun hc => hmem (by simp [← hc])
        have h14 : ¬ ("14days" = p) := fun hc => hmem (by simp [← hc])
        have hmo : ¬ ("month" = p) := fun hc => hmem (by simp [← hc])
        simp [periodMapping, List.find?, ht, h3, hw, h14, hmo]
      simp [period_to_days, hint, hfind]
    have hpm : ¬ (p = "month") := fun hc => hmem (by simp [hc])
    refine ⟨h1, ?_, ?_⟩
    · intro today
      simp [period_to_range_args, hpm, h1]
    · simp [get_session_data_route, hpm, h1]

/-- Witness for C5 at concrete period strings. -/
theorem C5_period_semantics_witness :
    period_to_days "5" = max 1 5
  ∧ period_to_days "banana" = 1
  ∧ period_to_range_args ⟨2026, 3, 15⟩ "banana" = ["--today"] :=
  ⟨C5_period_semantics.1 "5" 5 (by decide),
   (C5_period_semantics.2.2.2.1 "banana" (by decide) (by decide)).1,
   (C5_period_semantics.2.2.2.1 "banana" (by decide) (by decide)).2.1 ⟨2026, 3, 15⟩⟩

/-! ### Lookup characterization of the calendar merger -/

/-- The merged record the merge loop produces for one date. -/
def mergeLookup (ocl coding : List DayContribution) (dd : String) :
    Option DayContribution :=
  match alookup (toDateMap ocl) dd, alookup (toDateMap coding) dd with
  | some o, some c => some (mergeDayRecords dd o c)
  | some o, none => some o
  | none, some c => some c
  | none, none => none

theorem merge_contributions_eq (ocl coding : List DayContribution) :
    merge_contributions ocl coding =
      (sortDates (((toDateMap ocl).map (·.1) ++
        (toDateMap coding).map (·.1)).dedup)).filterMap (mergeLookup ocl coding) := rfl

theorem toDateMap_date (l : List DayContribution) (d : String)
    (day : DayContribution) (h : alookup (toDateMap l) d = some day) :
    day.date = d := by
  have gen : ∀ (ll : List DayContribution) (m : List (String × DayContribution)),
      (∀ k v, alookup m k = some v → v.date = k) →
      (∀ k v, alookup (ll.foldl (fun mm c => aupd mm c.date (fun _ => c)) m) k = some v →
        v.date = k) := by
    intro ll
    induction ll with
    | nil => intro m hm; exact hm
    | cons c ll ih =>
      intro m hm
      refine ih _ ?_
      intro k v hkv
      rw [alookup_aupd] at hkv
      by_cases hck : c.date = k
      · rw [if_pos hck] at hkv
        injection hkv with h2
        rw [← h2]
        exact hck
      · rw [if_neg hck] at hkv
        exact hm k v hkv
  exact gen l [] (by intro k v hkv; simp [alookup] at hkv) d day h

theorem alookup_some_mem_keys [DecidableEq κ] (m : List (κ × α)) (k : κ) (v : α)
    (h : alookup m k = some v) : k ∈ m.map (·.1) := by
  unfold alookup at h
  cases hf : m.find? (fun p => p.1 = k) with
  | none => rw [hf] at h; cases h
  | some p =>
    have hp := List.mem_of_find?_eq_some hf
    have hpk : p.1 = k := by simpa using List.find?_some hf
    exact hpk ▸ List.mem_map_of_mem (·.1) hp

theorem findDay_filterMap (g : String → Option DayContribution)
    (hg : ∀ d day, g d = some day → day.date = d) :
    ∀ (dates : List String), dates.Nodup → ∀ d ∈ dates,
      findDay (dates.filterMap g) d = g d := by
  intro dates
  induction dates with
  | nil => intro _ d hd; cases hd
  | cons a rest ih =>
    intro hnd d hd
    have hna : a ∉ rest := (List.nodup_cons.mp hnd).1
    have hnd2 : rest.Nodup := (List.nodup_cons.mp hnd).2
    rcases List.mem_cons.mp hd with rfl | hdrest
    · cases hga : g d with
      | some day =>
        simp only [List.filterMap_cons, hga]
        unfold findDay
        rw [List.find?_cons]
        simp [hg d day hga]
      | none =>
        simp only [List.filterMap_cons, hga]
        unfold findDay
        apply List.find?_eq_none.mpr
        intro x hx
        obtain ⟨k, hk, hgk⟩ := List.mem_filterMap.mp hx
        have hxk : x.date = k := hg k x hgk
        have hkd : k ≠ d := fun hcc => hna (hcc ▸ hk)
        simp [hxk, hkd]
    · have had : a ≠ d := fun hcc => hna (hcc ▸ hdrest)
      cases hga : g a with
      | some day =>
        simp only [List.filterMap_cons, hga]
        unfold findDay
        rw [List.find?_cons_of_neg]
        · exact ih hnd2 d hdrest
        · have hda : day.date = a := hg a day hga
          simp [hda, had]
      | none =>
        simp only [List.filterMap_cons, hga]
        exact ih hnd2 d hdrest

theorem mergeLookup_date (ocl coding : List DayContribution) :
    ∀ dd day, mergeLookup ocl coding dd = some day → day.date = dd := by
  intro dd day h
  unfold mergeLookup at h
  cases ho : alookup (toDateMap ocl) dd with
  | some o =>
    cases hc : alookup (toDateMap coding) dd with
    | some c =>
      rw [ho, hc] at h
      injection h with h2
      rw [← h2]
      rfl
    | none =>
      rw [ho, hc] at h
      injection h with h2
      rw [← h2]
      exact toDateMap_date ocl dd o ho
  | none =>
    cases hc : alookup (toDateMap coding) dd with
    | some c =>
      rw [ho, hc] at h
      injection h with h2
      rw [← h2]
      exact toDateMap_date coding dd c hc
    | none =>
      rw [ho, hc] at h
      cases h

theorem mem_merge_dates_left (ocl coding : List DayContribution) (d : String)
    (od : DayContribution) (h : alookup (toDateMap ocl) d = some od) :
    d ∈ sortDates (((toDateMap ocl).map (·.1) ++ (toDateMap coding).map (·.1)).dedup) := by
  have h1 : d ∈ (toDateMap ocl).map (·.1) := alookup_some_mem_keys _ _ _ h
  have h2 : d ∈ ((toDateMap ocl).map (·.1) ++ (toDateMap coding).map (·.1)).dedup := by
    rw [List.mem_dedup]
    exact List.mem_append_left _ h1
  exact ((List.perm_insertionSort _ _).mem_iff).mpr h2

theorem mem_merge_dates_right (ocl coding : List DayContribution) (d : String)
    (cd : DayContribution) (h : alookup (toDateMap coding) d = some cd) :
    d ∈ sortDates (((toDateMap ocl).map (·.1) ++ (toDateMap coding).map (·.1)).dedup) := by
  have h1 : d ∈ (toDateMap coding).map (·.1) := alookup_some_mem_keys _ _ _ h
  have h2 : d ∈ ((toDateMap ocl).map (·.1) ++ (toDateMap coding).map (·.1)).dedup := by
    rw [List.mem_dedup]
    exact List.mem_append_right _ h1
  exact ((List.perm_insertionSort _ _).mem_iff).mpr h2

theorem merge_dates_nodup (ocl coding : List DayContribution) :
    (sortDates (((toDateMap ocl).map (·.1) ++
      (toDateMap coding).map (·.1)).dedup)).Nodup :=
  ((List.perm_insertionSort _ _).nodup_iff).mpr (List.nodup_dedup _)

/-- C8: merging two daily-contribution series produces one series over the
union of their dates: for a date present in both inputs the merged day
sums every numeric field of `totals` and `tokenBreakdown`, concatenates
the `sources` lists (session-log side first), and takes the MAXIMUM of the
two intensities; a date present in only one input passes through
unchanged. -/
theorem C8_calendar_merge :
    ∀ (ocl coding : List DayContribution) (d : String),
      (∀ od cd, alookup (toDateMap ocl) d = some od →
          alookup (toDateMap coding) d = some cd →
          findDay (merge_contributions ocl coding) d = some
            { date := d,
              totals := { tokens := od.totals.tokens + cd.totals.tokens,
                          cost := od.totals.cost + cd.totals.cost,
                          messages := od.totals.messages + cd.totals.messages },
              intensity := max od.intensity cd.intensity,
              tokenBreakdown :=
                { input := od.tokenBreakdown.input + cd.tokenBreakdown.input,
                  output := od.tokenBreakdown.output + cd.tokenBreakdown.output,
                  cacheRead := od.tokenBreakdown.cacheRead + cd.tokenBreakdown.cacheRead,
                  cacheWrite := od.tokenBreakdown.cacheWrite + cd.tokenBreakdown.cacheWrite,
                  reasoning := od.tokenBreakdown.reasoning + cd.tokenBreakdown.reasoning },
              sources := od.sources ++ cd.sources })
    ∧ (∀ od, alookup (toDateMap ocl) d = some od →
          alookup (toDateMap coding) d = none →
          findDay (merge_contributions ocl coding) d = some od)
    ∧ (∀ cd, alookup (toDateMap ocl) d = none →
          alookup (toDateMap coding) d = some cd →
          findDay (merge_contributions ocl coding) d = some cd) := by
  intro ocl coding d
  refine ⟨?_, ?_, ?_⟩
  · intro od cd ho hc
    rw [merge_contributions_eq,
      findDay_filterMap (mergeLookup ocl coding) (mergeLookup_date ocl coding) _
        (merge_dates_nodup ocl coding) d (mem_merge_dates_left ocl coding d od ho)]
    unfold mergeLookup
    rw [ho, hc]
    rfl
  · intro od ho hc
    rw [merge_contributions_eq,
      findDay_filterMap (mergeLookup ocl coding) (mergeLookup_date ocl coding) _
        (merge_dates_nodup ocl coding) d (mem_merge_dates_left ocl coding d od ho)]
    unfold mergeLookup
    rw [ho, hc]
  · intro cd ho hc
    rw [merge_contributions_eq,
      findDay_filterMap (mergeLookup ocl coding) (mergeLookup_date ocl coding) _
        (merge_dates_nodup ocl coding) d (mem_merge_dates_right ocl coding d cd hc)]
    unfold mergeLookup
    rw [ho, hc]

/-- Witness for C8: a concrete pass-through of a date present only in the
session-log series. -/
theorem C8_calendar_merge_witness :
    findDay (merge_contributions
        [{ date := "2026-01-01",
           totals := { tokens := 10, cost := 0, messages := 1 },
           intensity := 2,
           tokenBreakdown := { input := 7, output := 3 },
           sources := [] }]
        [{ date := "2026-01-02",
           totals := { tokens := 4, cost := 0, messages := 1 },
           intensity := 1,
           tokenBreakdown := { input := 4 },
           sources := [] }]) "2026-01-01" =
      some { date := "2026-01-01",
             totals := { tokens := 10, cost := 0, messages := 1 },
             intensity := 2,
             tokenBreakdown := { input := 7, output := 3 },
             sources := [] } :=
  (C8_calendar_merge
      [{ date := "2026-01-01",
         totals := { tokens := 10, cost := 0, messages := 1 },
         intensity := 2,
         tokenBreakdown := { input := 7, output := 3 },
         sources := [] }]
      [{ date := "2026-01-02",
         totals := { tokens := 4, cost := 0, messages := 1 },
         intensity := 1,
         tokenBreakdown := { input := 4 },
         sources := [] }] "2026-01-01").2.1
    { date := "2026-01-01",
      totals := { tokens := 10, cost := 0, messages := 1 },
      intensity := 2,
      tokenBreakdown := { input := 7, output := 3 },
      sources := [] } (by decide) (by decide)
